import Mathlib

/-!
# Flint arena (`flint_arena.h`): a shallow embedding

The arena of `flint_arena.h` is a bump allocator over a chain of blocks that it
obtains from an injected provider (`alloc_fn`) and gives back, all at once,
through an injected releaser (`free_fn`).

Modelling choices:

* Addresses are natural numbers, `0` is the null pointer.  Pointer arithmetic is
  plain addition (C leaves out-of-range pointer arithmetic undefined, so no
  wrap-around is modelled for it).
* `size_t` values are natural numbers below `2 ^ size_bits`; the two `size_t`
  computations of `fl_arena_alloc` (`block_size + BLOCK_OVERHEAD` and
  `size_left -= size`) are reduced modulo `2 ^ size_bits`.
* `BLOCK_OVERHEAD = sizeof(char *)` depends on the target and is a field of
  `Abi`.
* The two callbacks are function pointers; the arena stores them as plain
  values.  What the provider answers is given by a `Provider`: a function of the
  pointer called, of the log of all provider and releaser calls made so far, and
  of the requested size.  Every call through either pointer is appended to the
  log (`Mach.calls`, most recent call first).
* The only memory the arena itself reads or writes is the link word at the start
  of each block; `Mach.heap` maps the address of such a word to the pointer
  stored there.  Neither callback writes link words of other blocks.
* The loop of `fl_arena_free` runs on fuel; the theorems show that the chain
  length is enough fuel in every reachable state.
-/

namespace Flint

/-- Target parameters: the width of `size_t` in bits and `sizeof(char *)`. -/
structure Abi where
  size_bits : Nat
  ptr_bytes : Nat
deriving DecidableEq, Repr

/-- The enum constant `BLOCK_OVERHEAD = sizeof(char *)`. -/
def BLOCK_OVERHEAD (abi : Abi) : Nat := abi.ptr_bytes

/-- One more than `SIZE_MAX`: `size_t` arithmetic is modulo this number. -/
def size_range (abi : Abi) : Nat := 2 ^ abi.size_bits

/-- A call made through one of the two injected function pointers. -/
inductive Call where
  | alloc (fn : Nat) (size : Nat) (ret : Nat)
  | free (fn : Nat) (ptr : Nat)
deriving DecidableEq, Repr

/-- Behaviour of the provider: function pointer, call log so far, requested
size; the result is the address of the block, `0` for failure. -/
abbrev Provider := Nat → List Call → Nat → Nat

/-- The struct `FlArena`. -/
structure FlArena where
  blocks : Nat
  current : Nat
  size_left : Nat
  alloc_fn : Nat
  free_fn : Nat
  block_size : Nat
deriving DecidableEq, Repr

/-- Machine state: the arena, the link words in memory, the log of callback
calls (most recent first). -/
structure Mach where
  arena : FlArena
  heap : Nat → Nat
  calls : List Call

/-- Embedding of `fl_arena_init`. -/
def fl_arena_init (m : Mach) (alloc_fn free_fn block_size : Nat) : Mach :=
  { m with arena :=
      { blocks := 0
        current := 0
        size_left := 0
        alloc_fn := alloc_fn
        free_fn := free_fn
        block_size := block_size } }

/-- The tail of `fl_arena_alloc` (lines 168-171): hand out `current`, then
`size_left -= size` in `size_t` arithmetic and `current += size`. -/
def carve (abi : Abi) (m : Mach) (size : Nat) : Nat × Mach :=
  let allocated := m.arena.current
  (allocated,
    { m with arena :=
        { m.arena with
          size_left := (m.arena.size_left + size_range abi - size) % size_range abi
          current := m.arena.current + size } })

/-- Embedding of `fl_arena_alloc`: the returned pointer and the new state. -/
def fl_arena_alloc (abi : Abi) (prov : Provider) (m : Mach) (size : Nat) : Nat × Mach :=
  if m.arena.size_left < size then
    let block_size := if size < m.arena.block_size then m.arena.block_size else size
    let block_node_size := (block_size + BLOCK_OVERHEAD abi) % size_range abi
    let new_block_node := prov m.arena.alloc_fn m.calls block_node_size
    let calls := Call.alloc m.arena.alloc_fn block_node_size new_block_node :: m.calls
    if new_block_node = 0 then
      (0, { m with calls := calls })
    else
      let heap := fun a => if a = new_block_node then m.arena.blocks else m.heap a
      let new_block := new_block_node + BLOCK_OVERHEAD abi
      carve abi
        { arena :=
            { m.arena with
              blocks := new_block_node
              current := new_block
              size_left := block_size }
          heap := heap
          calls := calls } size
  else
    carve abi m size

/-- The loop of `fl_arena_free` (lines 176-181): while `block` is not null, read
the link word, call the releaser on `block`, go on with the link. -/
def free_loop (free_fn : Nat) (heap : Nat → Nat) :
    Nat → Nat → List Call → Option (List Call)
  | 0, block, calls => if block = 0 then some calls else none
  | fuel + 1, block, calls =>
    if block = 0 then some calls
    else
      let next_block := heap block
      free_loop free_fn heap fuel next_block (Call.free free_fn block :: calls)

/-- Embedding of `fl_arena_free`; `none` when the fuel does not suffice. -/
def fl_arena_free (fuel : Nat) (m : Mach) : Option Mach :=
  match free_loop m.arena.free_fn m.heap fuel m.arena.blocks m.calls with
  | none => none
  | some calls =>
    some { m with
      arena := { m.arena with blocks := 0, current := 0, size_left := 0 }
      calls := calls }

/-- A finite sequence of `fl_arena_alloc` calls, nothing in between: the pairs
(returned pointer, requested size) in call order, and the final state. -/
def alloc_seq (abi : Abi) (prov : Provider) : Mach → List Nat → List (Nat × Nat) × Mach
  | m, [] => ([], m)
  | m, size :: rest =>
    let r := fl_arena_alloc abi prov m size
    let rs := alloc_seq abi prov r.2 rest
    ((r.1, size) :: rs.1, rs.2)

/-- Blocks that the provider has handed out and that the releaser has not got
back, as pairs (address, length), read off a call log. -/
def live : List Call → List (Nat × Nat)
  | [] => []
  | Call.alloc _ size ret :: cs => if ret = 0 then live cs else (ret, size) :: live cs
  | Call.free _ ptr :: cs => (live cs).filter (fun b => b.1 ≠ ptr)

/-- Provider contract, address level: every block it returned was non-null by
definition of success and at an address different from every block then
outstanding. -/
def ProviderFresh : List Call → Prop
  | [] => True
  | Call.alloc _ _ ret :: cs => (ret = 0 ∨ ∀ b ∈ live cs, b.1 ≠ ret) ∧ ProviderFresh cs
  | Call.free _ _ :: cs => ProviderFresh cs

/-- Provider contract, byte level: every block it returned, of the requested
length, shares no byte with any block then outstanding. -/
def ProviderDisjoint : List Call → Prop
  | [] => True
  | Call.alloc _ size ret :: cs =>
    (ret = 0 ∨ ∀ b ∈ live cs, ret + size ≤ b.1 ∨ b.1 + b.2 ≤ ret) ∧ ProviderDisjoint cs
  | Call.free _ _ :: cs => ProviderDisjoint cs

/-- The addresses of the blocks returned by the successful provider calls of a
log, most recent first. -/
def succ_allocs : List Call → List Nat
  | [] => []
  | Call.alloc _ _ ret :: cs => if ret = 0 then succ_allocs cs else ret :: succ_allocs cs
  | Call.free _ _ :: cs => succ_allocs cs

/-- The most recent successful provider call of a log: (address, length asked). -/
def last_obtained : List Call → Option (Nat × Nat)
  | [] => none
  | Call.alloc _ size ret :: cs => if ret = 0 then last_obtained cs else some (ret, size)
  | Call.free _ _ :: cs => last_obtained cs

/-- The list `l` is the block chain that starts at pointer `p`: following the
link words from `p` visits exactly the addresses of `l` and ends at null. -/
def IsChain (heap : Nat → Nat) : Nat → List Nat → Prop
  | p, [] => p = 0
  | p, b :: bs => p = b ∧ b ≠ 0 ∧ IsChain heap (heap b) bs

/-- The address-level provider contract can be checked on a concrete log. -/
instance decProviderFresh : (cs : List Call) → Decidable (ProviderFresh cs)
  | [] => isTrue trivial
  | Call.alloc _ _ ret :: cs =>
    have := decProviderFresh cs
    inferInstanceAs (Decidable ((ret = 0 ∨ ∀ b ∈ live cs, b.1 ≠ ret) ∧ ProviderFresh cs))
  | Call.free _ _ :: cs => decProviderFresh cs

/-- The byte-level provider contract can be checked on a concrete log. -/
instance decProviderDisjoint : (cs : List Call) → Decidable (ProviderDisjoint cs)
  | [] => isTrue trivial
  | Call.alloc _ size ret :: cs =>
    have := decProviderDisjoint cs
    inferInstanceAs (Decidable
      ((ret = 0 ∨ ∀ b ∈ live cs, ret + size ≤ b.1 ∨ b.1 + b.2 ≤ ret) ∧ ProviderDisjoint cs))
  | Call.free _ _ :: cs => decProviderDisjoint cs

/-- Whether a list is the chain starting at a pointer can be checked. -/
instance decIsChain (heap : Nat → Nat) : (p : Nat) → (l : List Nat) → Decidable (IsChain heap p l)
  | p, [] => inferInstanceAs (Decidable (p = 0))
  | p, b :: bs =>
    have := decIsChain heap (heap b) bs
    inferInstanceAs (Decidable (p = b ∧ b ≠ 0 ∧ IsChain heap (heap b) bs))

/-- States reachable from `fl_arena_init` by `fl_arena_alloc` and `fl_arena_free`
calls with `size_t` arguments.  The second index is the call log as it stood at
the latest `fl_arena_init` or `fl_arena_free`. -/
inductive Reachable (abi : Abi) (prov : Provider) : Mach → List Call → Prop where
  | init (m : Mach) (alloc_fn free_fn block_size : Nat)
      (hb : block_size < size_range abi) :
      Reachable abi prov (fl_arena_init m alloc_fn free_fn block_size) m.calls
  | alloc (m : Mach) (base : List Call) (size : Nat)
      (hr : Reachable abi prov m base) (hs : size < size_range abi) :
      Reachable abi prov (fl_arena_alloc abi prov m size).2 base
  | free (m m2 : Mach) (base : List Call) (fuel : Nat)
      (hr : Reachable abi prov m base) (hf : fl_arena_free fuel m = some m2) :
      Reachable abi prov m2 m2.calls

/-- The results of a call sequence that are not null. -/
def regions (res : List (Nat × Nat)) : List (Nat × Nat) :=
  res.filter (fun r => r.1 ≠ 0)

/-- Two byte ranges `[p, p + n)` one of which ends at or before the start of
the other, so that they share no byte. -/
def Apart (r s : Nat × Nat) : Prop :=
  r.1 + r.2 ≤ s.1 ∨ s.1 + s.2 ≤ r.1

/-- Containment, as the property of one run: the non-null results are pairwise
apart and each lies in the usable part (after the link header) of a block that
is on the chain of the final state and outstanding at the provider. -/
def Containment (abi : Abi) (prov : Provider) (m : Mach) (sizes : List Nat) : Prop :=
  let out := alloc_seq abi prov m sizes
  (regions out.1).Pairwise Apart ∧
  ∃ l, IsChain out.2.heap out.2.arena.blocks l ∧
    ∀ r ∈ regions out.1, ∃ b ∈ live out.2.calls,
      b.1 ∈ l ∧ b.1 + BLOCK_OVERHEAD abi ≤ r.1 ∧ r.1 + r.2 ≤ b.1 + b.2

/-- A 64-bit target: `size_t` has 64 bits, a pointer 8 bytes. -/
def abi64 : Abi := { size_bits := 64, ptr_bytes := 8 }

/-- A provider for examples: every call succeeds, the blocks are 4096 bytes
apart, one further for each call already in the log. -/
def bump_provider : Provider := fun _ calls _ => 4096 * (calls.length + 1)

/-- A provider for examples that always fails. -/
def failing_provider : Provider := fun _ _ _ => 0

/-- An empty machine: no link words, no calls, all fields zero. -/
def mach0 : Mach :=
  { arena := { blocks := 0, current := 0, size_left := 0, alloc_fn := 0, free_fn := 0,
               block_size := 0 }
    heap := fun _ => 0
    calls := [] }

/-- A freshly initialised arena with `block_size = 64`, callbacks `1` and `2`. -/
def fresh64 : Mach := fl_arena_init mach0 1 2 64

/-- New-block sizing, as the property of one call: when `size_left < size` the
provider is asked once, and when it succeeds it was asked for
`max block_size size + BLOCK_OVERHEAD` bytes, the result is `BLOCK_OVERHEAD`
past the block, `size_left` is `max block_size size - size` and `current` is
the result plus `size`. -/
def NewBlockSizing (abi : Abi) (prov : Provider) (m : Mach) (size : Nat) : Prop :=
  m.arena.size_left < size →
  let out := fl_arena_alloc abi prov m size
  ∃ req ret, out.2.calls = Call.alloc m.arena.alloc_fn req ret :: m.calls ∧
    ret = prov m.arena.alloc_fn m.calls req ∧
    (ret ≠ 0 →
      req = max m.arena.block_size size + BLOCK_OVERHEAD abi ∧
      out.1 = ret + BLOCK_OVERHEAD abi ∧
      out.2.arena.size_left = max m.arena.block_size size - size ∧
      out.2.arena.current = out.1 + size)

/-- Remaining-bytes invariant of one state.  With a chain (`blocks` not null):
the head block is the one the latest successful provider call returned, for a
request of capacity `max block_size size0` plus the overhead (as computed in
`size_t`), `current + size_left` is the end of that capacity and `current` is
not before the usable region.  Without a chain: `size_left = 0` and `current`
is null. -/
def RemainingInvariant (abi : Abi) (m : Mach) : Prop :=
  (m.arena.blocks ≠ 0 →
    ∃ size0, size0 < size_range abi ∧
      last_obtained m.calls = some (m.arena.blocks,
        (max m.arena.block_size size0 + BLOCK_OVERHEAD abi) % size_range abi) ∧
      m.arena.current + m.arena.size_left
        = m.arena.blocks + BLOCK_OVERHEAD abi + max m.arena.block_size size0 ∧
      m.arena.blocks + BLOCK_OVERHEAD abi ≤ m.arena.current) ∧
  (m.arena.blocks = 0 → m.arena.size_left = 0 ∧ m.arena.current = 0)

/-- Oversized request, as the property of one call with `block_size < size`:
the provider is asked (once, and nothing is released); when it succeeds it was
asked for `size + BLOCK_OVERHEAD` bytes, the result is the start of the usable
region of the new block, `size_left` is 0, the new block is pushed on the chain
with every older link word untouched, and the new region is apart from every
byte range inside an outstanding block that the new block does not overlap. -/
def OversizedRequest (abi : Abi) (prov : Provider) (m : Mach) (size : Nat) : Prop :=
  m.arena.block_size < size →
  let out := fl_arena_alloc abi prov m size
  ∃ req ret, out.2.calls = Call.alloc m.arena.alloc_fn req ret :: m.calls ∧
    ret = prov m.arena.alloc_fn m.calls req ∧
    (ret ≠ 0 →
      req = size + BLOCK_OVERHEAD abi ∧
      out.1 = ret + BLOCK_OVERHEAD abi ∧
      out.2.arena.size_left = 0 ∧
      out.2.arena.blocks = ret ∧
      out.2.heap ret = m.arena.blocks ∧
      (∀ a, a ≠ ret → out.2.heap a = m.heap a) ∧
      (∀ l, IsChain m.heap m.arena.blocks l → ret ∉ l →
        IsChain out.2.heap out.2.arena.blocks (ret :: l)) ∧
      (∀ b ∈ live m.calls, Apart (ret, req) b →
        ∀ p n, b.1 ≤ p → p + n ≤ b.1 + b.2 → Apart (out.1, size) (p, n)))

/-- Chain invariant of a state with respect to the call log `base` of the
latest `fl_arena_init` or `fl_arena_free`: the calls since then are provider
calls only, and the chain in memory lists exactly the blocks that the
successful ones returned, most recent first, without repetition, all of them
outstanding at the provider. -/
def ChainInv (m : Mach) (base : List Call) : Prop :=
  ∃ ev, m.calls = ev ++ base ∧
    (∀ c ∈ ev, ∃ fn s r, c = Call.alloc fn s r) ∧
    IsChain m.heap m.arena.blocks (succ_allocs ev) ∧
    (succ_allocs ev).Nodup ∧
    ∀ b ∈ succ_allocs ev, b ∈ (live m.calls).map Prod.fst

/-- The state of the example arena after a request of 10 bytes. -/
def used64 : Mach := (fl_arena_alloc abi64 bump_provider fresh64 10).2

/-- The state of the example arena after a request of 10 bytes and a release. -/
def freed64 : Mach :=
  { arena := fresh64.arena
    heap := used64.heap
    calls := [Call.free 2 4096, Call.alloc 1 72 4096] }

/-- Block invariant used for containment: `bl` lists the blocks of the chain
with their lengths, head first; they are outstanding at the provider, longer
than the link header and pairwise apart; `current` and `size_left` delimit the
free tail of the head block; the regions `regs` handed out so far are pairwise
apart, each inside the usable part of a block of `bl`, and those of the head
block end at or before `current`. -/
def BlockInv (abi : Abi) (m : Mach) (bl regs : List (Nat × Nat)) : Prop :=
  m.arena.size_left < size_range abi ∧
  IsChain m.heap m.arena.blocks (bl.map Prod.fst) ∧
  (∀ b ∈ bl, b ∈ live m.calls ∧ BLOCK_OVERHEAD abi < b.2) ∧
  bl.Pairwise Apart ∧
  (bl = [] → m.arena.current = 0 ∧ m.arena.size_left = 0) ∧
  (∀ b, bl.head? = some b →
    b.1 + BLOCK_OVERHEAD abi ≤ m.arena.current ∧
    m.arena.current + m.arena.size_left = b.1 + b.2) ∧
  regs.Pairwise Apart ∧
  (∀ r ∈ regs, ∃ b ∈ bl,
    b.1 + BLOCK_OVERHEAD abi ≤ r.1 ∧ r.1 + r.2 ≤ b.1 + b.2 ∧
    (bl.head? = some b → r.1 + r.2 ≤ m.arena.current))

/-- An arena initialised with the largest block size of a 64-bit target. -/
def huge64 : Mach := fl_arena_init mach0 1 2 (2 ^ 64 - 1)

/-- The block is big enough, as the property of one call: whenever the call
obtains a new block (the provider is called and succeeds), the byte count it
passed to the provider is at least `size + BLOCK_OVERHEAD`. -/
def BlockBigEnough (abi : Abi) (prov : Provider) (m : Mach) (size : Nat) : Prop :=
  ∀ req ret,
    (fl_arena_alloc abi prov m size).2.calls = Call.alloc m.arena.alloc_fn req ret :: m.calls →
    ret ≠ 0 → size + BLOCK_OVERHEAD abi ≤ req

/-- The lifecycle state Empty: no blocks, `current` null, `size_left = 0`, as
after `fl_arena_init` or `fl_arena_free`. -/
def ArenaEmpty (m : Mach) : Prop :=
  m.arena.blocks = 0 ∧ m.arena.current = 0 ∧ m.arena.size_left = 0

/-- The lifecycle state Active: the chain holds one block or more. -/
def ArenaActive (m : Mach) : Prop :=
  m.arena.blocks ≠ 0

/-- The provider failed during one call of `fl_arena_alloc`: the call made a
provider call and its result was null. -/
def ProviderFailed (abi : Abi) (prov : Provider) (m : Mach) (size : Nat) : Prop :=
  ∃ req, (fl_arena_alloc abi prov m size).2.calls
    = Call.alloc m.arena.alloc_fn req 0 :: m.calls

/-- Empty to Active, as the property of one call: on an Empty arena, a call
during which the provider does not fail leaves the arena Active. -/
def EmptyToActive (abi : Abi) (prov : Provider) (m : Mach) (size : Nat) : Prop :=
  ArenaEmpty m → ¬ ProviderFailed abi prov m size →
    ArenaActive (fl_arena_alloc abi prov m size).2

/-- The state in which `fl_arena_alloc` reaches line 168, that is lines 148-166
of the function alone; `none` when the function returned at line 157. -/
def before_carve (abi : Abi) (prov : Provider) (m : Mach) (size : Nat) : Option Mach :=
  if m.arena.size_left < size then
    let block_size := if size < m.arena.block_size then m.arena.block_size else size
    let block_node_size := (block_size + BLOCK_OVERHEAD abi) % size_range abi
    let new_block_node := prov m.arena.alloc_fn m.calls block_node_size
    let calls := Call.alloc m.arena.alloc_fn block_node_size new_block_node :: m.calls
    if new_block_node = 0 then
      none
    else
      let heap := fun a => if a = new_block_node then m.arena.blocks else m.heap a
      let new_block := new_block_node + BLOCK_OVERHEAD abi
      some
        { arena :=
            { m.arena with
              blocks := new_block_node
              current := new_block
              size_left := block_size }
          heap := heap
          calls := calls }
  else
    some m

/-- The state in which the example arena, after 10 bytes served, reaches line
168 of a request of 100 bytes: a second block, at 8192, with 100 bytes left. -/
def grown64 : Mach :=
  { arena := { blocks := 8192, current := 8200, size_left := 100, alloc_fn := 1,
               free_fn := 2, block_size := 64 }
    heap := fun a => if a = 8192 then 4096 else used64.heap a
    calls := [Call.alloc 1 108 8192, Call.alloc 1 72 4096] }

/-- The scenario of the spec with `block_size = 64`, step by step: `A`, `B`,
`C` are the blocks the provider returns, `s1` to `s5` the states after each
call.  The first request of 10 bytes obtains a block of capacity 64 and
returns the start `A + BLOCK_OVERHEAD` of its usable region; the second
returns 10 bytes further, without a provider call, leaving 44 bytes; the
request of 100 bytes obtains a block of capacity 100 and returns the start of
its usable region; `fl_arena_free` releases `B` and `A`, once each, and leaves
the arena Empty; the request of 5 bytes obtains a block of capacity 64. -/
def Scenario (abi : Abi) (prov : Provider) (m0 : Mach) (af ff : Nat) : Prop :=
  ∃ A B C s1 s2 s3 s4 s5,
    fl_arena_alloc abi prov (fl_arena_init m0 af ff 64) 10
      = (A + BLOCK_OVERHEAD abi, s1) ∧
    s1.calls = Call.alloc af (64 + BLOCK_OVERHEAD abi) A :: m0.calls ∧ A ≠ 0 ∧
    fl_arena_alloc abi prov s1 10 = (A + BLOCK_OVERHEAD abi + 10, s2) ∧
    s2.calls = s1.calls ∧ s2.arena.size_left = 44 ∧
    fl_arena_alloc abi prov s2 100 = (B + BLOCK_OVERHEAD abi, s3) ∧
    s3.calls = Call.alloc af (100 + BLOCK_OVERHEAD abi) B :: s2.calls ∧ B ≠ 0 ∧
    (∀ fuel, 2 ≤ fuel → fl_arena_free fuel s3 = some s4) ∧
    s4.calls = Call.free ff A :: Call.free ff B :: s3.calls ∧ A ≠ B ∧
    ArenaEmpty s4 ∧
    fl_arena_alloc abi prov s4 5 = (C + BLOCK_OVERHEAD abi, s5) ∧
    s5.calls = Call.alloc af (64 + BLOCK_OVERHEAD abi) C :: s4.calls ∧ C ≠ 0

-- ===========================================================================
-- Unfolding lemmas for `fl_arena_alloc`
-- ===========================================================================

theorem block_size_eq_max (bs size : Nat) :
    (if size < bs then bs else size) = max bs size := by
  split
  · omega
  · omega

theorem alloc_fast (abi : Abi) (prov : Provider) (m : Mach) (size : Nat)
    (h : ¬ m.arena.size_left < size) :
    fl_arena_alloc abi prov m size = carve abi m size := by
  unfold fl_arena_alloc
  rw [if_neg h]

theorem alloc_fail (abi : Abi) (prov : Provider) (m : Mach) (size : Nat)
    (h : m.arena.size_left < size)
    (hp : prov m.arena.alloc_fn m.calls
      ((max m.arena.block_size size + BLOCK_OVERHEAD abi) % size_range abi) = 0) :
    fl_arena_alloc abi prov m size =
      (0, { m with calls := (Call.alloc m.arena.alloc_fn
        ((max m.arena.block_size size + BLOCK_OVERHEAD abi) % size_range abi) 0 :: m.calls) }) := by
  unfold fl_arena_alloc
  rw [if_pos h]
  simp only [block_size_eq_max]
  rw [if_pos hp, hp]

theorem alloc_grow (abi : Abi) (prov : Provider) (m : Mach) (size : Nat)
    (h : m.arena.size_left < size)
    (hp : prov m.arena.alloc_fn m.calls
      ((max m.arena.block_size size + BLOCK_OVERHEAD abi) % size_range abi) ≠ 0) :
    fl_arena_alloc abi prov m size =
      carve abi
        { arena :=
            { m.arena with
              blocks := prov m.arena.alloc_fn m.calls
                ((max m.arena.block_size size + BLOCK_OVERHEAD abi) % size_range abi)
              current := prov m.arena.alloc_fn m.calls
                ((max m.arena.block_size size + BLOCK_OVERHEAD abi) % size_range abi)
                + BLOCK_OVERHEAD abi
              size_left := max m.arena.block_size size }
          heap := fun a =>
            if a = prov m.arena.alloc_fn m.calls
                ((max m.arena.block_size size + BLOCK_OVERHEAD abi) % size_range abi)
            then m.arena.blocks else m.heap a
          calls := Call.alloc m.arena.alloc_fn
            ((max m.arena.block_size size + BLOCK_OVERHEAD abi) % size_range abi)
            (prov m.arena.alloc_fn m.calls
              ((max m.arena.block_size size + BLOCK_OVERHEAD abi) % size_range abi))
            :: m.calls } size := by
  unfold fl_arena_alloc
  rw [if_pos h]
  simp only [block_size_eq_max]
  rw [if_neg hp]

theorem sub_size_t (n a b : Nat) (ha : a < n) (hb : b ≤ a) :
    (a + n - b) % n = a - b := by
  have h : a + n - b = (a - b) + n := by omega
  rw [h, Nat.add_mod_right]
  exact Nat.mod_eq_of_lt (by omega)

-- ===========================================================================
-- C2: failure atomicity
-- ===========================================================================

/-- C2. Failure atomicity: when `size_left < size` and the provider answers the
request of this call with null, `fl_arena_alloc` returns null, every field of
the arena and every link word is as before, and the call log has grown by
exactly one provider call (with null result) and by no releaser call. -/
theorem failure_atomicity (abi : Abi) (prov : Provider) (m : Mach) (size : Nat)
    (h : m.arena.size_left < size)
    (hp : prov m.arena.alloc_fn m.calls
      ((max m.arena.block_size size + BLOCK_OVERHEAD abi) % size_range abi) = 0) :
    (fl_arena_alloc abi prov m size).1 = 0 ∧
    (fl_arena_alloc abi prov m size).2.arena = m.arena ∧
    (fl_arena_alloc abi prov m size).2.heap = m.heap ∧
    (fl_arena_alloc abi prov m size).2.calls =
      Call.alloc m.arena.alloc_fn
        ((max m.arena.block_size size + BLOCK_OVERHEAD abi) % size_range abi) 0 :: m.calls := by
  rw [alloc_fail abi prov m size h hp]
  exact ⟨rfl, rfl, rfl, rfl⟩

/-- Witness for C2: a fresh arena with block size 64, a request of 10 bytes and
a provider that fails. -/
theorem failure_atomicity_witness :
    fresh64.arena.size_left < 10 ∧
    (fl_arena_alloc abi64 failing_provider fresh64 10).1 = 0 ∧
    (fl_arena_alloc abi64 failing_provider fresh64 10).2.arena = fresh64.arena ∧
    (fl_arena_alloc abi64 failing_provider fresh64 10).2.calls = [Call.alloc 1 72 0] :=
  have h := failure_atomicity abi64 failing_provider fresh64 10 (by decide) rfl
  ⟨by decide, h.1, h.2.1, h.2.2.2⟩

-- ===========================================================================
-- C4: new-block sizing
-- ===========================================================================

/-- C4 fails on the code: on a 64-bit target with `block_size = 64`, the call
`fl_arena_alloc(2^64 - 1)` on the fresh arena has `size_left < size`, and the
provider, which succeeds, is asked for 7 bytes (the `size_t` sum of line 154
wraps around), fewer than `max block_size size + BLOCK_OVERHEAD`; the call
returns 4104, `BLOCK_OVERHEAD` past that 7-byte block. -/
theorem new_block_sizing_fails :
    fresh64.arena.size_left < 2 ^ 64 - 1 ∧
    (fl_arena_alloc abi64 bump_provider fresh64 (2 ^ 64 - 1)).2.calls
      = [Call.alloc 1 7 4096] ∧
    (fl_arena_alloc abi64 bump_provider fresh64 (2 ^ 64 - 1)).1 = 4104 ∧
    7 < max fresh64.arena.block_size (2 ^ 64 - 1) + BLOCK_OVERHEAD abi64 ∧
    ¬ NewBlockSizing abi64 bump_provider fresh64 (2 ^ 64 - 1) := by
  refine ⟨by decide, by decide, by decide, by decide, ?_⟩
  intro h
  have hc : (fl_arena_alloc abi64 bump_provider fresh64 (2 ^ 64 - 1)).2.calls
      = [Call.alloc 1 7 4096] := by decide
  obtain ⟨req, ret, h1, _, h3⟩ := h (by decide)
  rw [hc] at h1
  injection h1 with h1 _
  injection h1 with _ hreq hret
  subst hreq hret
  exact absurd (h3 (by decide)).1 (by decide)

/-- Off the wrap-around the sizing is as intended: when
`max block_size size + BLOCK_OVERHEAD` fits in `size_t`, a call with
`size_left < size` asks the provider exactly once, for that many bytes, and on
success returns the address `BLOCK_OVERHEAD` past the block, leaving
`size_left = max block_size size - size` and `current = result + size`. -/
theorem new_block_sizing_of_fit (abi : Abi) (prov : Provider) (m : Mach) (size : Nat)
    (hfit : max m.arena.block_size size + BLOCK_OVERHEAD abi < size_range abi) :
    NewBlockSizing abi prov m size := by
  intro hlt
  have hreq : (max m.arena.block_size size + BLOCK_OVERHEAD abi) % size_range abi
      = max m.arena.block_size size + BLOCK_OVERHEAD abi := Nat.mod_eq_of_lt hfit
  by_cases hp : prov m.arena.alloc_fn m.calls
      ((max m.arena.block_size size + BLOCK_OVERHEAD abi) % size_range abi) = 0
  · refine ⟨max m.arena.block_size size + BLOCK_OVERHEAD abi, 0, ?_, ?_, ?_⟩
    · rw [alloc_fail abi prov m size hlt hp, hreq]
    · rw [hreq] at hp
      exact hp.symm
    · intro h0
      exact absurd rfl h0
  · refine ⟨max m.arena.block_size size + BLOCK_OVERHEAD abi,
      prov m.arena.alloc_fn m.calls (max m.arena.block_size size + BLOCK_OVERHEAD abi),
      ?_, rfl, ?_⟩
    · rw [alloc_grow abi prov m size hlt hp, hreq]
      rfl
    · intro _
      rw [alloc_grow abi prov m size hlt hp, hreq]
      refine ⟨rfl, rfl, ?_, rfl⟩
      show (max m.arena.block_size size + size_range abi - size) % size_range abi
        = max m.arena.block_size size - size
      exact sub_size_t _ _ _ (by omega) (le_max_right _ _)

/-- An instance of the sizing off the wrap-around: a fresh arena with block
size 64 and a request of 10 bytes on a 64-bit target. -/
theorem new_block_sizing_of_fit_example :
    max fresh64.arena.block_size 10 + BLOCK_OVERHEAD abi64 < size_range abi64 ∧
    NewBlockSizing abi64 bump_provider fresh64 10 :=
  ⟨by decide, new_block_sizing_of_fit abi64 bump_provider fresh64 10 (by decide)⟩

-- ===========================================================================
-- C5: contiguity
-- ===========================================================================

theorem alloc_current (abi : Abi) (prov : Provider) (m : Mach) (size : Nat)
    (h : (fl_arena_alloc abi prov m size).1 ≠ 0) :
    (fl_arena_alloc abi prov m size).2.arena.current
      = (fl_arena_alloc abi prov m size).1 + size := by
  by_cases hlt : m.arena.size_left < size
  · by_cases hp : prov m.arena.alloc_fn m.calls
        ((max m.arena.block_size size + BLOCK_OVERHEAD abi) % size_range abi) = 0
    · rw [alloc_fail abi prov m size hlt hp] at h
      exact absurd rfl h
    · rw [alloc_grow abi prov m size hlt hp]
      rfl
  · rw [alloc_fast abi prov m size hlt]
    rfl

/-- C5. Contiguity: if `fl_arena_alloc(n1)` returns a non-null address and the
next call `fl_arena_alloc(n2)` finds `size_left >= n2`, so that it obtains no
new block, then the second call returns the first address plus `n1`. -/
theorem contiguity (abi : Abi) (prov : Provider) (m : Mach) (n1 n2 : Nat)
    (h1 : (fl_arena_alloc abi prov m n1).1 ≠ 0)
    (h2 : ¬ (fl_arena_alloc abi prov m n1).2.arena.size_left < n2) :
    (fl_arena_alloc abi prov (fl_arena_alloc abi prov m n1).2 n2).1
      = (fl_arena_alloc abi prov m n1).1 + n1 := by
  rw [alloc_fast abi prov _ n2 h2]
  exact alloc_current abi prov m n1 h1

/-- Witness for C5: two requests of 10 bytes on a fresh arena with block size
64; the second result is the first plus 10. -/
theorem contiguity_witness :
    (fl_arena_alloc abi64 bump_provider fresh64 10).1 ≠ 0 ∧
    ¬ (fl_arena_alloc abi64 bump_provider fresh64 10).2.arena.size_left < 10 ∧
    (fl_arena_alloc abi64 bump_provider (fl_arena_alloc abi64 bump_provider fresh64 10).2 10).1
      = 4104 + 10 :=
  ⟨by decide, by decide, contiguity abi64 bump_provider fresh64 10 10 (by decide) (by decide)⟩

-- ===========================================================================
-- C8: releasing an arena that has no blocks
-- ===========================================================================

theorem free_loop_null (fn : Nat) (heap : Nat → Nat) (fuel : Nat) (calls : List Call) :
    free_loop fn heap fuel 0 calls = some calls := by
  cases fuel <;> simp [free_loop]

theorem free_result (fuel : Nat) (m m2 : Mach) (h : fl_arena_free fuel m = some m2) :
    m2.arena = { m.arena with blocks := 0, current := 0, size_left := 0 } ∧
    m2.heap = m.heap ∧
    free_loop m.arena.free_fn m.heap fuel m.arena.blocks m.calls = some m2.calls := by
  unfold fl_arena_free at h
  split at h
  · exact absurd h (by simp)
  · next calls hc =>
    injection h with h
    subst h
    exact ⟨rfl, rfl, hc⟩

/-- C8. Idempotent empty release: on an arena without blocks (`blocks`,
`current` and `size_left` all zero, as after `fl_arena_init` or
`fl_arena_free`) `fl_arena_free` returns with the state, call log included,
exactly as before, so no provider or releaser call is made; hence a second
`fl_arena_free` right after a first changes nothing and calls nothing. -/
theorem idempotent_empty_release :
    (∀ (m : Mach) (fuel : Nat), m.arena.blocks = 0 → m.arena.current = 0 →
      m.arena.size_left = 0 → fl_arena_free fuel m = some m) ∧
    (∀ (m m1 : Mach) (fuel : Nat), fl_arena_free fuel m = some m1 →
      ∀ fuel2, fl_arena_free fuel2 m1 = some m1) := by
  have key : ∀ (m : Mach) (fuel : Nat), m.arena.blocks = 0 → m.arena.current = 0 →
      m.arena.size_left = 0 → fl_arena_free fuel m = some m := by
    intro m fuel hb hc hs
    obtain ⟨⟨b, c, s, af, ff, bs⟩, heap, calls⟩ := m
    simp only at hb hc hs
    subst hb hc hs
    simp [fl_arena_free, free_loop_null]
  refine ⟨key, ?_⟩
  intro m m1 fuel h fuel2
  obtain ⟨ha, _, _⟩ := free_result fuel m m1 h
  exact key m1 fuel2 (by rw [ha]) (by rw [ha]) (by rw [ha])

/-- Witness for C8: releasing the fresh arena leaves it as it is. -/
theorem idempotent_empty_release_witness :
    fresh64.arena.blocks = 0 ∧ fl_arena_free 0 fresh64 = some fresh64 :=
  ⟨rfl, idempotent_empty_release.1 fresh64 0 rfl rfl rfl⟩

-- ===========================================================================
-- Invariants of the reachable states that need no provider contract
-- ===========================================================================

theorem size_range_pos (abi : Abi) : 0 < size_range abi :=
  Nat.two_pow_pos _

theorem inv_alloc (abi : Abi) (prov : Provider) (m : Mach) (size : Nat)
    (hs : size < size_range abi)
    (hb : m.arena.block_size < size_range abi)
    (hl : m.arena.size_left ≤ m.arena.block_size)
    (hi : RemainingInvariant abi m) :
    (fl_arena_alloc abi prov m size).2.arena.block_size = m.arena.block_size ∧
    (fl_arena_alloc abi prov m size).2.arena.size_left ≤ m.arena.block_size ∧
    RemainingInvariant abi (fl_arena_alloc abi prov m size).2 := by
  obtain ⟨h1, h0⟩ := hi
  by_cases hlt : m.arena.size_left < size
  · by_cases hp : prov m.arena.alloc_fn m.calls
        ((max m.arena.block_size size + BLOCK_OVERHEAD abi) % size_range abi) = 0
    · rw [alloc_fail abi prov m size hlt hp]
      refine ⟨rfl, hl, ?_, h0⟩
      intro hne
      obtain ⟨s0, hs0, hlast, hrest⟩ := h1 hne
      exact ⟨s0, hs0, by simpa [last_obtained] using hlast, hrest⟩
    · rw [alloc_grow abi prov m size hlt hp]
      have hsub : (max m.arena.block_size size + size_range abi - size) % size_range abi
          = max m.arena.block_size size - size :=
        sub_size_t _ _ _ (by omega) (le_max_right _ _)
      unfold RemainingInvariant
      dsimp only [carve]
      rw [hsub]
      refine ⟨rfl, by omega, ?_, ?_⟩
      · intro _
        refine ⟨size, hs, ?_, ?_, ?_⟩
        · simp [last_obtained, hp]
        · have := le_max_right m.arena.block_size size
          omega
        · omega
      · intro hz
        exact absurd hz hp
  · rw [alloc_fast abi prov m size hlt]
    have hsub : (m.arena.size_left + size_range abi - size) % size_range abi
        = m.arena.size_left - size :=
      sub_size_t _ _ _ (by omega) (by omega)
    unfold RemainingInvariant
    dsimp only [carve]
    rw [hsub]
    refine ⟨rfl, by omega, ?_, ?_⟩
    · intro hne
      obtain ⟨s0, hs0, hlast, hsum, hge⟩ := h1 hne
      refine ⟨s0, hs0, hlast, ?_, ?_⟩
      · omega
      · omega
    · intro hz
      obtain ⟨hsl, hcur⟩ := h0 hz
      omega

theorem reachable_inv (abi : Abi) (prov : Provider) (m : Mach) (base : List Call)
    (hr : Reachable abi prov m base) :
    m.arena.block_size < size_range abi ∧
    m.arena.size_left ≤ m.arena.block_size ∧
    RemainingInvariant abi m := by
  induction hr with
  | init m af ff bs hb =>
    refine ⟨hb, Nat.zero_le _, ?_, ?_⟩
    · intro h
      exact absurd rfl h
    · intro _
      exact ⟨rfl, rfl⟩
  | alloc m base size _ hs ih =>
    obtain ⟨hb, hl, hi⟩ := ih
    obtain ⟨e1, e2, e3⟩ := inv_alloc abi prov m size hs hb hl hi
    exact ⟨by rw [e1]; exact hb, by rw [e1]; exact e2, e3⟩
  | free m m2 base fuel _ hf ih =>
    obtain ⟨ha, _, _⟩ := free_result fuel m m2 hf
    refine ⟨by rw [ha]; exact ih.1, by rw [ha]; exact Nat.zero_le _, ?_, ?_⟩
    · intro h
      rw [ha] at h
      exact absurd rfl h
    · intro _
      rw [ha]
      exact ⟨rfl, rfl⟩

theorem isChain_congr (heap heap2 : Nat → Nat) (l : List Nat) :
    ∀ p, IsChain heap p l → (∀ b ∈ l, heap2 b = heap b) → IsChain heap2 p l := by
  induction l with
  | nil =>
    intro p h _
    exact h
  | cons b bs ih =>
    intro p h hh
    obtain ⟨h1, h2, h3⟩ := h
    refine ⟨h1, h2, ?_⟩
    rw [hh b (List.mem_cons_self b bs)]
    exact ih _ h3 (fun c hc => hh c (List.mem_cons_of_mem b hc))

theorem isChain_push (heap : Nat → Nat) (p ret : Nat) (l : List Nat)
    (hret : ret ≠ 0) (hc : IsChain heap p l) (hn : ret ∉ l) :
    IsChain (fun a => if a = ret then p else heap a) ret (ret :: l) := by
  refine ⟨rfl, hret, ?_⟩
  have hp : (fun a => if a = ret then p else heap a) ret = p := if_pos rfl
  rw [hp]
  apply isChain_congr heap _ l p hc
  intro b hb
  have : b ≠ ret := fun e => hn (e ▸ hb)
  exact if_neg this

-- ===========================================================================
-- C3: the only failure is provider failure
-- ===========================================================================

/-- C10 fails on the code: in the reachable state right after
`fl_arena_init` with `block_size = 64` on a 64-bit target, the oversized call
`fl_arena_alloc(2^64 - 1)` asks the provider, which succeeds, for 7 bytes (the
`size_t` sum of line 154 wraps around), fewer than `size + BLOCK_OVERHEAD` and
fewer than `block_size`, so the block does not have capacity `size`; the call
returns 4104 and leaves `size_left = 0`. -/
theorem oversized_request_fails :
    Reachable abi64 bump_provider fresh64 [] ∧
    fresh64.arena.block_size < 2 ^ 64 - 1 ∧
    (fl_arena_alloc abi64 bump_provider fresh64 (2 ^ 64 - 1)).2.calls
      = [Call.alloc 1 7 4096] ∧
    (fl_arena_alloc abi64 bump_provider fresh64 (2 ^ 64 - 1)).1 = 4104 ∧
    (fl_arena_alloc abi64 bump_provider fresh64 (2 ^ 64 - 1)).2.arena.size_left = 0 ∧
    7 < 2 ^ 64 - 1 + BLOCK_OVERHEAD abi64 ∧
    7 < fresh64.arena.block_size ∧
    ¬ OversizedRequest abi64 bump_provider fresh64 (2 ^ 64 - 1) := by
  refine ⟨Reachable.init mach0 1 2 64 (by decide), by decide, by decide, by decide,
    by decide, by decide, by decide, ?_⟩
  intro h
  have hc : (fl_arena_alloc abi64 bump_provider fresh64 (2 ^ 64 - 1)).2.calls
      = [Call.alloc 1 7 4096] := by decide
  obtain ⟨req, ret, h1, _, h3⟩ := h (by decide)
  rw [hc] at h1
  injection h1 with h1 _
  injection h1 with _ hreq hret
  subst hreq hret
  exact absurd (h3 (by decide)).1 (by decide)

/-- Off the wrap-around an oversized request is handled as intended: in every
reachable state, a request with `size > block_size` whose
`size + BLOCK_OVERHEAD` fits in `size_t` always goes to the provider (once; it
is never served from the current block); when the provider succeeds it was
asked for `size + BLOCK_OVERHEAD` bytes, the result is the start of the usable
region of the new block, `size_left` is 0 afterwards, the new block is pushed
on the chain without touching any other link word, nothing is released, and
the new region is apart from every byte range inside an outstanding block that
the new block does not overlap. -/
theorem oversized_request_of_fit (abi : Abi) (prov : Provider) (m : Mach) (base : List Call)
    (size : Nat) (hr : Reachable abi prov m base)
    (hfit : size + BLOCK_OVERHEAD abi < size_range abi) :
    OversizedRequest abi prov m size := by
  obtain ⟨hb, hl, _, _⟩ := reachable_inv abi prov m base hr
  intro hbig
  have hlt : m.arena.size_left < size := by omega
  have hmax : max m.arena.block_size size = size := max_eq_right (by omega)
  have hreq : (max m.arena.block_size size + BLOCK_OVERHEAD abi) % size_range abi
      = size + BLOCK_OVERHEAD abi := by
    rw [hmax]
    exact Nat.mod_eq_of_lt hfit
  by_cases hp : prov m.arena.alloc_fn m.calls
      ((max m.arena.block_size size + BLOCK_OVERHEAD abi) % size_range abi) = 0
  · refine ⟨size + BLOCK_OVERHEAD abi, 0, ?_, ?_, ?_⟩
    · rw [alloc_fail abi prov m size hlt hp, hreq]
    · rw [hreq] at hp
      exact hp.symm
    · intro h0
      exact absurd rfl h0
  · refine ⟨size + BLOCK_OVERHEAD abi,
      prov m.arena.alloc_fn m.calls (size + BLOCK_OVERHEAD abi), ?_, rfl, ?_⟩
    · rw [alloc_grow abi prov m size hlt hp, hreq]
      rfl
    · intro hne
      rw [alloc_grow abi prov m size hlt hp, hreq, hmax]
      dsimp only [carve]
      refine ⟨rfl, rfl, ?_, rfl, ?_, ?_, ?_, ?_⟩
      · rw [sub_size_t _ _ _ (by omega) (le_refl _)]
        omega
      · rw [if_pos rfl]
      · intro a ha
        rw [if_neg ha]
      · intro l hc hn
        exact isChain_push m.heap m.arena.blocks _ l hne hc hn
      · intro b _ hap p n h1 h2
        unfold Apart at hap ⊢
        dsimp only at hap ⊢
        omega

/-- An instance of the oversized request off the wrap-around: a request of 100
bytes on an arena with block size 64 that has already served 10 bytes. -/
theorem oversized_request_of_fit_example :
    Reachable abi64 bump_provider (fl_arena_alloc abi64 bump_provider fresh64 10).2 [] ∧
    100 + BLOCK_OVERHEAD abi64 < size_range abi64 ∧
    OversizedRequest abi64 bump_provider (fl_arena_alloc abi64 bump_provider fresh64 10).2 100 :=
  ⟨Reachable.alloc fresh64 [] 10 (Reachable.init mach0 1 2 64 (by decide)) (by decide),
   by decide,
   oversized_request_of_fit abi64 bump_provider _ [] 100
    (Reachable.alloc fresh64 [] 10 (Reachable.init mach0 1 2 64 (by decide)) (by decide))
    (by decide)⟩

-- ===========================================================================
-- The chain in memory and the loop of `fl_arena_free`
-- ===========================================================================

theorem providerFresh_suffix (xs ys : List Call) (h : ProviderFresh (xs ++ ys)) :
    ProviderFresh ys := by
  induction xs with
  | nil => exact h
  | cons c cs ih =>
    cases c with
    | alloc fn s r => exact ih h.2
    | free fn p => exact ih h

theorem free_loop_chain (fn : Nat) (heap : Nat → Nat) (l : List Nat) :
    ∀ (p fuel : Nat) (calls : List Call), IsChain heap p l → l.length ≤ fuel →
      free_loop fn heap fuel p calls = some ((l.map (Call.free fn)).reverse ++ calls) := by
  induction l with
  | nil =>
    intro p fuel calls h _
    have hp : p = 0 := h
    subst hp
    simpa using free_loop_null fn heap fuel calls
  | cons b bs ih =>
    intro p fuel calls h hf
    obtain ⟨h1, h2, h3⟩ := h
    subst h1
    cases fuel with
    | zero => simp at hf
    | succ fuel =>
      have hlen : bs.length ≤ fuel := by simpa using hf
      simp only [free_loop, if_neg h2]
      rw [ih (heap p) fuel (Call.free fn p :: calls) h3 hlen]
      simp

theorem free_loop_extends (fn : Nat) (heap : Nat → Nat) :
    ∀ (fuel p : Nat) (calls out : List Call), free_loop fn heap fuel p calls = some out →
      ∃ fr, out = fr ++ calls := by
  intro fuel
  induction fuel with
  | zero =>
    intro p calls out h
    simp only [free_loop] at h
    split at h
    · injection h with h
      exact ⟨[], by simpa using h.symm⟩
    · exact absurd h (by simp)
  | succ fuel ih =>
    intro p calls out h
    simp only [free_loop] at h
    split at h
    · injection h with h
      exact ⟨[], by simpa using h.symm⟩
    · obtain ⟨fr, hfr⟩ := ih _ _ _ h
      exact ⟨fr ++ [Call.free fn p], by simpa using hfr⟩

theorem chain_alloc (abi : Abi) (prov : Provider) (m : Mach) (base : List Call) (size : Nat)
    (hi : ChainInv m base)
    (hp : ProviderFresh (fl_arena_alloc abi prov m size).2.calls) :
    ChainInv (fl_arena_alloc abi prov m size).2 base := by
  obtain ⟨ev, hev, honly, hchain, hnd, hlive⟩ := hi
  by_cases hlt : m.arena.size_left < size
  · by_cases hz : prov m.arena.alloc_fn m.calls
        ((max m.arena.block_size size + BLOCK_OVERHEAD abi) % size_range abi) = 0
    · rw [alloc_fail abi prov m size hlt hz]
      refine ⟨Call.alloc m.arena.alloc_fn
        ((max m.arena.block_size size + BLOCK_OVERHEAD abi) % size_range abi) 0 :: ev,
        ?_, ?_, ?_, ?_, ?_⟩
      · simp [hev]
      · intro c hc
        rcases List.mem_cons.1 hc with h | h
        · exact ⟨_, _, _, h⟩
        · exact honly c h
      · simpa [succ_allocs] using hchain
      · simpa [succ_allocs] using hnd
      · simpa [succ_allocs, live] using hlive
    · rw [alloc_grow abi prov m size hlt hz] at hp ⊢
      dsimp only [carve] at hp ⊢
      have hnew : ∀ b ∈ live m.calls, b.1 ≠ prov m.arena.alloc_fn m.calls
          ((max m.arena.block_size size + BLOCK_OVERHEAD abi) % size_range abi) := by
        rcases hp.1 with h | h
        · exact absurd h hz
        · exact h
      have hnot : prov m.arena.alloc_fn m.calls
          ((max m.arena.block_size size + BLOCK_OVERHEAD abi) % size_range abi)
            ∉ succ_allocs ev := by
        intro hmem
        obtain ⟨b, hb, hb1⟩ := List.mem_map.1 (hlive _ hmem)
        exact hnew b hb hb1
      refine ⟨Call.alloc m.arena.alloc_fn
        ((max m.arena.block_size size + BLOCK_OVERHEAD abi) % size_range abi)
        (prov m.arena.alloc_fn m.calls
          ((max m.arena.block_size size + BLOCK_OVERHEAD abi) % size_range abi)) :: ev,
        ?_, ?_, ?_, ?_, ?_⟩
      · simp [hev]
      · intro c hc
        rcases List.mem_cons.1 hc with h | h
        · exact ⟨_, _, _, h⟩
        · exact honly c h
      · simp only [succ_allocs, if_neg hz]
        exact isChain_push m.heap m.arena.blocks _ _ hz hchain hnot
      · simp only [succ_allocs, if_neg hz]
        exact List.nodup_cons.2 ⟨hnot, hnd⟩
      · simp only [succ_allocs, if_neg hz, live]
        intro b hb
        rcases List.mem_cons.1 hb with h | h
        · subst h
          simp
        · have := hlive b h
          simp only [List.map_cons, List.mem_cons]
          exact Or.inr this
  · rw [alloc_fast abi prov m size hlt]
    exact ⟨ev, hev, honly, hchain, hnd, hlive⟩

theorem alloc_calls_extend (abi : Abi) (prov : Provider) (m : Mach) (size : Nat) :
    ∃ ext, (fl_arena_alloc abi prov m size).2.calls = ext ++ m.calls := by
  by_cases hlt : m.arena.size_left < size
  · by_cases hz : prov m.arena.alloc_fn m.calls
        ((max m.arena.block_size size + BLOCK_OVERHEAD abi) % size_range abi) = 0
    · rw [alloc_fail abi prov m size hlt hz]
      exact ⟨[_], rfl⟩
    · rw [alloc_grow abi prov m size hlt hz]
      exact ⟨[_], rfl⟩
  · rw [alloc_fast abi prov m size hlt]
    exact ⟨[], rfl⟩

theorem reachable_chain (abi : Abi) (prov : Provider) (m : Mach) (base : List Call)
    (hr : Reachable abi prov m base) :
    ProviderFresh m.calls → ChainInv m base := by
  induction hr with
  | init m af ff bs hb =>
    intro _
    exact ⟨[], rfl, by simp, rfl, List.nodup_nil, by simp [succ_allocs]⟩
  | alloc m base size _ hs ih =>
    intro hp
    obtain ⟨ext, hext⟩ := alloc_calls_extend abi prov m size
    have hp0 : ProviderFresh m.calls := providerFresh_suffix ext m.calls (hext ▸ hp)
    exact chain_alloc abi prov m base size (ih hp0) hp
  | free m m2 base fuel _ hf ih =>
    intro _
    obtain ⟨ha, _, _⟩ := free_result fuel m m2 hf
    refine ⟨[], rfl, by simp, ?_, List.nodup_nil, by simp [succ_allocs]⟩
    rw [ha]
    exact rfl

theorem free_of_chain (m : Mach) (l : List Nat) (fuel : Nat)
    (hc : IsChain m.heap m.arena.blocks l) (hf : l.length ≤ fuel) :
    fl_arena_free fuel m = some
      { arena := { m.arena with blocks := 0, current := 0, size_left := 0 }
        heap := m.heap
        calls := (l.map (Call.free m.arena.free_fn)).reverse ++ m.calls } := by
  unfold fl_arena_free
  rw [free_loop_chain m.arena.free_fn m.heap l _ fuel m.calls hc hf]

-- ===========================================================================
-- C6: bulk release is exact
-- ===========================================================================

theorem alloc_heap_indep (abi : Abi) (prov : Provider) (m x : Mach) (size : Nat)
    (ha : x.arena = m.arena) (hc : x.calls = m.calls) :
    (fl_arena_alloc abi prov x size).1 = (fl_arena_alloc abi prov m size).1 ∧
    (fl_arena_alloc abi prov x size).2.arena = (fl_arena_alloc abi prov m size).2.arena ∧
    (fl_arena_alloc abi prov x size).2.calls = (fl_arena_alloc abi prov m size).2.calls := by
  by_cases hlt : m.arena.size_left < size
  · have hltx : x.arena.size_left < size := by rw [ha]; exact hlt
    by_cases hz : prov m.arena.alloc_fn m.calls
        ((max m.arena.block_size size + BLOCK_OVERHEAD abi) % size_range abi) = 0
    · have hzx : prov x.arena.alloc_fn x.calls
          ((max x.arena.block_size size + BLOCK_OVERHEAD abi) % size_range abi) = 0 := by
        rw [ha, hc]; exact hz
      rw [alloc_fail abi prov x size hltx hzx, alloc_fail abi prov m size hlt hz]
      simp [ha, hc]
    · have hzx : prov x.arena.alloc_fn x.calls
          ((max x.arena.block_size size + BLOCK_OVERHEAD abi) % size_range abi) ≠ 0 := by
        rw [ha, hc]; exact hz
      rw [alloc_grow abi prov x size hltx hzx, alloc_grow abi prov m size hlt hz]
      simp [carve, ha, hc]
  · have hltx : ¬ x.arena.size_left < size := by rw [ha]; exact hlt
    rw [alloc_fast abi prov x size hltx, alloc_fast abi prov m size hlt]
    simp [carve, ha, hc]

theorem alloc_seq_heap_indep (abi : Abi) (prov : Provider) (sizes : List Nat) :
    ∀ (m x : Mach), x.arena = m.arena → x.calls = m.calls →
      (alloc_seq abi prov x sizes).1 = (alloc_seq abi prov m sizes).1 ∧
      (alloc_seq abi prov x sizes).2.arena = (alloc_seq abi prov m sizes).2.arena ∧
      (alloc_seq abi prov x sizes).2.calls = (alloc_seq abi prov m sizes).2.calls := by
  induction sizes with
  | nil =>
    intro m x ha hc
    exact ⟨rfl, ha, hc⟩
  | cons s ss ih =>
    intro m x ha hc
    obtain ⟨h1, h2, h3⟩ := alloc_heap_indep abi prov m x s ha hc
    obtain ⟨i1, i2, i3⟩ := ih _ _ h2 h3
    simp only [alloc_seq]
    exact ⟨by rw [h1, i1], i2, i3⟩

/-- C7. Reusability: whenever `fl_arena_free` returns, the state it leaves is
the state `fl_arena_init` produces with the same `alloc_fn`, `free_fn` and
`block_size` (chain empty, `current` null, `size_left = 0`), so every sequence
of `fl_arena_alloc` calls gives the same results, the same arena states and
the same provider calls as on a freshly initialised arena with that
configuration and call log; and `fl_arena_free` does return in every reachable
state when the provider never returns a block that is still outstanding. -/
theorem reusability (abi : Abi) (prov : Provider) :
    (∀ (m m2 : Mach) (fuel : Nat), fl_arena_free fuel m = some m2 →
      m2 = fl_arena_init m2 m.arena.alloc_fn m.arena.free_fn m.arena.block_size ∧
      ∀ (x : Mach) (sizes : List Nat), x.calls = m2.calls →
        (alloc_seq abi prov
            (fl_arena_init x m.arena.alloc_fn m.arena.free_fn m.arena.block_size) sizes).1
          = (alloc_seq abi prov m2 sizes).1 ∧
        (alloc_seq abi prov
            (fl_arena_init x m.arena.alloc_fn m.arena.free_fn m.arena.block_size) sizes).2.arena
          = (alloc_seq abi prov m2 sizes).2.arena ∧
        (alloc_seq abi prov
            (fl_arena_init x m.arena.alloc_fn m.arena.free_fn m.arena.block_size) sizes).2.calls
          = (alloc_seq abi prov m2 sizes).2.calls) ∧
    (∀ (m : Mach) (base : List Call), Reachable abi prov m base → ProviderFresh m.calls →
      ∃ fuel m2, fl_arena_free fuel m = some m2) := by
  constructor
  · intro m m2 fuel h
    obtain ⟨ha, _, _⟩ := free_result fuel m m2 h
    constructor
    · obtain ⟨a2, h2, c2⟩ := m2
      simp only at ha
      subst ha
      rfl
    · intro x sizes hx
      exact alloc_seq_heap_indep abi prov sizes m2 _ (by rw [ha]; rfl) hx
  · intro m base hr hp
    obtain ⟨ev, _, _, hchain, _, _⟩ := reachable_chain abi prov m base hr hp
    exact ⟨_, _, free_of_chain m _ _ hchain (le_refl _)⟩

/-- Witness for C7: releasing the arena that has served 10 bytes gives the
freshly initialised arena again. -/
theorem reusability_witness :
    fl_arena_free 1 used64 = some freed64 ∧
    freed64 = fl_arena_init freed64 1 2 64 :=
  ⟨rfl, ((reusability abi64 bump_provider).1 used64 freed64 1 rfl).1⟩

-- ===========================================================================
-- C1: containment
-- ===========================================================================

theorem regions_single (p n : Nat) :
    regions [(p, n)] = if p = 0 then [] else [(p, n)] := by
  by_cases h : p = 0 <;> simp [regions, h]

theorem regions_cons (a : Nat × Nat) (l : List (Nat × Nat)) :
    regions (a :: l) = regions [a] ++ regions l := by
  unfold regions
  rw [← List.filter_append]
  rfl

theorem providerDisjoint_suffix (xs ys : List Call) (h : ProviderDisjoint (xs ++ ys)) :
    ProviderDisjoint ys := by
  induction xs with
  | nil => exact h
  | cons c cs ih =>
    cases c with
    | alloc fn s r => exact ih h.2
    | free fn p => exact ih h

theorem alloc_block_size (abi : Abi) (prov : Provider) (m : Mach) (size : Nat) :
    (fl_arena_alloc abi prov m size).2.arena.block_size = m.arena.block_size := by
  by_cases hlt : m.arena.size_left < size
  · by_cases hz : prov m.arena.alloc_fn m.calls
        ((max m.arena.block_size size + BLOCK_OVERHEAD abi) % size_range abi) = 0
    · rw [alloc_fail abi prov m size hlt hz]
    · rw [alloc_grow abi prov m size hlt hz]
      rfl
  · rw [alloc_fast abi prov m size hlt]
    rfl

theorem alloc_seq_calls_extend (abi : Abi) (prov : Provider) (sizes : List Nat) :
    ∀ m : Mach, ∃ ext, (alloc_seq abi prov m sizes).2.calls = ext ++ m.calls := by
  induction sizes with
  | nil =>
    intro m
    exact ⟨[], rfl⟩
  | cons s ss ih =>
    intro m
    obtain ⟨e1, h1⟩ := alloc_calls_extend abi prov m s
    obtain ⟨e2, h2⟩ := ih (fl_arena_alloc abi prov m s).2
    refine ⟨e2 ++ e1, ?_⟩
    simp only [alloc_seq]
    rw [h2, h1, List.append_assoc]

theorem block_alloc_fast (abi : Abi) (m : Mach) (size : Nat) (bl regs : List (Nat × Nat))
    (hi : BlockInv abi m bl regs) (hlt : ¬ m.arena.size_left < size) :
    BlockInv abi (carve abi m size).2 bl (regs ++ regions [((carve abi m size).1, size)]) := by
  obtain ⟨hsl, hchain, hlive, hpw, hempty, hhead, hregs, hreg⟩ := hi
  have hsub : (m.arena.size_left + size_range abi - size) % size_range abi
      = m.arena.size_left - size :=
    sub_size_t _ _ _ hsl (by omega)
  unfold BlockInv
  dsimp only [carve]
  rw [hsub, regions_single]
  cases bl with
  | nil =>
    obtain ⟨hcur, hz⟩ := hempty rfl
    have hsz : size = 0 := by omega
    rw [if_pos hcur, List.append_nil]
    refine ⟨by omega, hchain, hlive, hpw, ?_, ?_, hregs, ?_⟩
    · intro _
      omega
    · intro b hb
      simp at hb
    · intro r hr
      obtain ⟨b, hb, _⟩ := hreg r hr
      simp at hb
  | cons hd tl =>
    obtain ⟨hh1, hh2⟩ := hhead hd rfl
    have hne : hd.1 ≠ 0 := hchain.2.1
    have hcur : m.arena.current ≠ 0 := by omega
    have hpw2 := List.pairwise_cons.1 hpw
    rw [if_neg hcur]
    refine ⟨by omega, hchain, hlive, hpw, ?_, ?_, ?_, ?_⟩
    · intro h
      simp at h
    · intro b hb
      simp only [List.head?_cons, Option.some.injEq] at hb
      subst hb
      omega
    · refine List.pairwise_append.2 ⟨hregs, List.pairwise_singleton _ _, ?_⟩
      intro r hr s hs
      have hs2 : s = (m.arena.current, size) := by simpa using hs
      subst hs2
      obtain ⟨b, hb, h1, h2, h3⟩ := hreg r hr
      unfold Apart
      dsimp only
      rcases List.mem_cons.1 hb with hbe | hbt
      · subst hbe
        exact Or.inl (h3 rfl)
      · have hap := hpw2.1 b hbt
        unfold Apart at hap
        omega
    · intro r hr
      rcases List.mem_append.1 hr with hr1 | hr2
      · obtain ⟨b, hb, h1, h2, h3⟩ := hreg r hr1
        refine ⟨b, hb, h1, h2, ?_⟩
        intro hb2
        have := h3 hb2
        omega
      · have hr3 : r = (m.arena.current, size) := by simpa using hr2
        subst hr3
        refine ⟨hd, List.mem_cons_self _ _, hh1, ?_, ?_⟩
        · dsimp only
          omega
        · intro _
          exact le_refl _

theorem block_alloc_grow (abi : Abi) (m : Mach) (size ret : Nat) (bl regs : List (Nat × Nat))
    (hi : BlockInv abi m bl regs) (hlt : m.arena.size_left < size)
    (hfit : max m.arena.block_size size + BLOCK_OVERHEAD abi < size_range abi)
    (hz : ret ≠ 0)
    (hfresh : ∀ b ∈ live m.calls,
      ret + (max m.arena.block_size size + BLOCK_OVERHEAD abi) ≤ b.1 ∨ b.1 + b.2 ≤ ret) :
    BlockInv abi
      (carve abi
        { arena :=
            { m.arena with
              blocks := ret
              current := ret + BLOCK_OVERHEAD abi
              size_left := max m.arena.block_size size }
          heap := fun a => if a = ret then m.arena.blocks else m.heap a
          calls := Call.alloc m.arena.alloc_fn
            (max m.arena.block_size size + BLOCK_OVERHEAD abi) ret :: m.calls } size).2
      ((ret, max m.arena.block_size size + BLOCK_OVERHEAD abi) :: bl)
      (regs ++ [(ret + BLOCK_OVERHEAD abi, size)]) := by
  obtain ⟨hsl, hchain, hlive, hpw, hempty, hhead, hregs, hreg⟩ := hi
  have hmax := le_max_right m.arena.block_size size
  have hsub : (max m.arena.block_size size + size_range abi - size) % size_range abi
      = max m.arena.block_size size - size :=
    sub_size_t _ _ _ (by omega) hmax
  have hnot : ret ∉ bl.map Prod.fst := by
    intro hmem
    obtain ⟨b, hb, hb1⟩ := List.mem_map.1 hmem
    have h1 := hfresh b (hlive b hb).1
    have h2 := (hlive b hb).2
    omega
  unfold BlockInv
  dsimp only [carve]
  rw [hsub]
  refine ⟨by omega, ?_, ?_, ?_, ?_, ?_, ?_, ?_⟩
  · exact isChain_push m.heap m.arena.blocks ret _ hz hchain hnot
  · intro b hb
    simp only [live, if_neg hz]
    rcases List.mem_cons.1 hb with hbe | hbt
    · subst hbe
      exact ⟨List.mem_cons_self _ _, by dsimp only; omega⟩
    · exact ⟨List.mem_cons_of_mem _ (hlive b hbt).1, (hlive b hbt).2⟩
  · exact List.pairwise_cons.2 ⟨fun b hb => hfresh b (hlive b hb).1, hpw⟩
  · intro h
    simp at h
  · intro b hb
    simp only [List.head?_cons, Option.some.injEq] at hb
    subst hb
    dsimp only
    omega
  · refine List.pairwise_append.2 ⟨hregs, List.pairwise_singleton _ _, ?_⟩
    intro r hr s hs
    have hs2 : s = (ret + BLOCK_OVERHEAD abi, size) := by simpa using hs
    subst hs2
    obtain ⟨b, hb, h1, h2, _⟩ := hreg r hr
    have h3 := hfresh b (hlive b hb).1
    unfold Apart
    dsimp only
    omega
  · intro r hr
    rcases List.mem_append.1 hr with hr1 | hr2
    · obtain ⟨b, hb, h1, h2, _⟩ := hreg r hr1
      refine ⟨b, List.mem_cons_of_mem _ hb, h1, h2, ?_⟩
      intro hb2
      simp only [List.head?_cons, Option.some.injEq] at hb2
      subst hb2
      exact absurd (List.mem_map.2 ⟨_, hb, rfl⟩) hnot
    · have hr3 : r = (ret + BLOCK_OVERHEAD abi, size) := by simpa using hr2
      subst hr3
      refine ⟨_, List.mem_cons_self _ _, le_refl _, ?_, ?_⟩
      · dsimp only
        omega
      · intro _
        exact le_refl _

theorem block_alloc (abi : Abi) (prov : Provider) (m : Mach) (size : Nat)
    (bl regs : List (Nat × Nat)) (hi : BlockInv abi m bl regs)
    (hfit : max m.arena.block_size size + BLOCK_OVERHEAD abi < size_range abi)
    (hp : ProviderDisjoint (fl_arena_alloc abi prov m size).2.calls) :
    ∃ bl2, BlockInv abi (fl_arena_alloc abi prov m size).2 bl2
      (regs ++ regions [((fl_arena_alloc abi prov m size).1, size)]) := by
  have hreq : (max m.arena.block_size size + BLOCK_OVERHEAD abi) % size_range abi
      = max m.arena.block_size size + BLOCK_OVERHEAD abi := Nat.mod_eq_of_lt hfit
  by_cases hlt : m.arena.size_left < size
  · by_cases hz : prov m.arena.alloc_fn m.calls
        ((max m.arena.block_size size + BLOCK_OVERHEAD abi) % size_range abi) = 0
    · rw [alloc_fail abi prov m size hlt hz]
      refine ⟨bl, ?_⟩
      obtain ⟨hsl, hchain, hlive, hrest⟩ := hi
      rw [regions_single, if_pos rfl, List.append_nil]
      refine ⟨hsl, hchain, ?_, hrest⟩
      intro b hb
      simpa [live] using hlive b hb
    · rw [alloc_grow abi prov m size hlt hz] at hp ⊢
      rw [hreq] at hp hz ⊢
      have hfresh : ∀ b ∈ live m.calls,
          prov m.arena.alloc_fn m.calls (max m.arena.block_size size + BLOCK_OVERHEAD abi)
            + (max m.arena.block_size size + BLOCK_OVERHEAD abi) ≤ b.1
          ∨ b.1 + b.2 ≤ prov m.arena.alloc_fn m.calls
            (max m.arena.block_size size + BLOCK_OVERHEAD abi) := by
        rcases hp.1 with h | h
        · exact absurd h hz
        · exact h
      have hne : prov m.arena.alloc_fn m.calls
          (max m.arena.block_size size + BLOCK_OVERHEAD abi) + BLOCK_OVERHEAD abi ≠ 0 := by
        omega
      have key := block_alloc_grow abi m size _ bl regs hi hlt hfit hz hfresh
      refine ⟨(prov m.arena.alloc_fn m.calls (max m.arena.block_size size + BLOCK_OVERHEAD abi),
        max m.arena.block_size size + BLOCK_OVERHEAD abi) :: bl, ?_⟩
      rw [regions_single]
      dsimp only [carve] at key ⊢
      rw [if_neg hne]
      exact key
  · rw [alloc_fast abi prov m size hlt]
    exact ⟨bl, block_alloc_fast abi m size bl regs hi hlt⟩

theorem block_alloc_seq (abi : Abi) (prov : Provider) (sizes : List Nat) :
    ∀ (m : Mach) (bl regs : List (Nat × Nat)), BlockInv abi m bl regs →
      (∀ s ∈ sizes, max m.arena.block_size s + BLOCK_OVERHEAD abi < size_range abi) →
      ProviderDisjoint (alloc_seq abi prov m sizes).2.calls →
      ∃ bl2, BlockInv abi (alloc_seq abi prov m sizes).2 bl2
        (regs ++ regions (alloc_seq abi prov m sizes).1) := by
  induction sizes with
  | nil =>
    intro m bl regs hi _ _
    exact ⟨bl, by simpa [alloc_seq, regions] using hi⟩
  | cons s ss ih =>
    intro m bl regs hi hfit hp
    simp only [alloc_seq] at hp ⊢
    obtain ⟨ext, hext⟩ := alloc_seq_calls_extend abi prov ss (fl_arena_alloc abi prov m s).2
    have hp1 : ProviderDisjoint (fl_arena_alloc abi prov m s).2.calls :=
      providerDisjoint_suffix ext _ (hext ▸ hp)
    obtain ⟨bl1, hi1⟩ := block_alloc abi prov m s bl regs hi
      (hfit s (List.mem_cons_self _ _)) hp1
    have hfit1 : ∀ t ∈ ss, max (fl_arena_alloc abi prov m s).2.arena.block_size t
        + BLOCK_OVERHEAD abi < size_range abi := by
      intro t ht
      rw [alloc_block_size]
      exact hfit t (List.mem_cons_of_mem _ ht)
    obtain ⟨bl2, hi2⟩ := ih _ bl1 _ hi1 hfit1 hp
    refine ⟨bl2, ?_⟩
    rw [regions_cons, ← List.append_assoc]
    exact hi2

theorem blockInv_init (abi : Abi) (m0 : Mach) (af ff bs : Nat) :
    BlockInv abi (fl_arena_init m0 af ff bs) [] [] := by
  refine ⟨size_range_pos abi, rfl, ?_, List.Pairwise.nil, ?_, ?_, List.Pairwise.nil, ?_⟩
  · intro b hb
    simp at hb
  · intro _
    exact ⟨rfl, rfl⟩
  · intro b hb
    simp at hb
  · intro r hr
    simp at hr

/-- C1 fails on the code: on a 64-bit target with `block_size = 2^64 - 1`, a
single request of 1 byte satisfies `size + BLOCK_OVERHEAD <= SIZE_MAX`, the
provider is asked for 7 bytes (the `size_t` sum `block_size + BLOCK_OVERHEAD`
of line 154 wraps around) and returns a fresh block of 7 bytes at 4096, and
the region returned, `[4104, 4105)`, lies outside that block. -/
theorem containment_fails :
    (∀ s ∈ [1], s + BLOCK_OVERHEAD abi64 < size_range abi64) ∧
    huge64.arena.block_size < size_range abi64 ∧
    ProviderDisjoint (alloc_seq abi64 bump_provider huge64 [1]).2.calls ∧
    (alloc_seq abi64 bump_provider huge64 [1]).1 = [(4104, 1)] ∧
    live (alloc_seq abi64 bump_provider huge64 [1]).2.calls = [(4096, 7)] ∧
    ¬ Containment abi64 bump_provider huge64 [1] := by
  have hl : live (alloc_seq abi64 bump_provider huge64 [1]).2.calls = [(4096, 7)] := by decide
  have hr : regions (alloc_seq abi64 bump_provider huge64 [1]).1 = [(4104, 1)] := by decide
  refine ⟨by decide, by decide, ?_, by decide, hl, ?_⟩
  · decide
  · intro h
    obtain ⟨_, l, _, h2⟩ := h
    obtain ⟨b, hb, _, _, h3⟩ := h2 (4104, 1) (by rw [hr]; exact List.mem_singleton.2 rfl)
    rw [hl] at hb
    have hb2 : b = (4096, 7) := List.mem_singleton.1 hb
    subst hb2
    exact absurd h3 (by decide)

/-- Off the wrap-around containment holds: starting from the state produced by
`fl_arena_init` (which is also the state `fl_arena_free` leaves), for every
finite sequence of `fl_arena_alloc` calls with nothing in between, if every
block the provider
returned has the requested length and shares no byte with a block then
outstanding (which a provider whose blocks are disjoint from all it returned
before satisfies), and if `max block_size size + BLOCK_OVERHEAD` fits in `size_t`
for every requested size, then the byte ranges of the non-null results are
pairwise non-overlapping and each lies inside the usable part, after the link
header, of a block that is on the chain of the final state. -/
theorem containment_of_fit (abi : Abi) (prov : Provider) (m0 : Mach) (af ff bs : Nat)
    (sizes : List Nat)
    (hfit : ∀ s ∈ sizes, max bs s + BLOCK_OVERHEAD abi < size_range abi)
    (hp : ProviderDisjoint (alloc_seq abi prov (fl_arena_init m0 af ff bs) sizes).2.calls) :
    Containment abi prov (fl_arena_init m0 af ff bs) sizes := by
  obtain ⟨bl, hi⟩ := block_alloc_seq abi prov sizes (fl_arena_init m0 af ff bs) [] []
    (blockInv_init abi m0 af ff bs) hfit hp
  rw [List.nil_append] at hi
  obtain ⟨_, hchain, hlive, _, _, _, hregs, hreg⟩ := hi
  refine ⟨hregs, bl.map Prod.fst, hchain, ?_⟩
  intro r hr
  obtain ⟨b, hb, h1, h2, _⟩ := hreg r hr
  exact ⟨b, (hlive b hb).1, List.mem_map.2 ⟨b, hb, rfl⟩, h1, h2⟩

/-- An instance of containment off the wrap-around: requests of 10, 10 and 100
bytes on a fresh arena with block size 64. -/
theorem containment_of_fit_example :
    (∀ s ∈ [10, 10, 100], max 64 s + BLOCK_OVERHEAD abi64 < size_range abi64) ∧
    ProviderDisjoint (alloc_seq abi64 bump_provider (fl_arena_init mach0 1 2 64)
      [10, 10, 100]).2.calls ∧
    Containment abi64 bump_provider (fl_arena_init mach0 1 2 64) [10, 10, 100] :=
  have hp : ProviderDisjoint (alloc_seq abi64 bump_provider (fl_arena_init mach0 1 2 64)
      [10, 10, 100]).2.calls := by decide
  ⟨by decide, hp,
   containment_of_fit abi64 bump_provider mach0 1 2 64 [10, 10, 100] (by decide) hp⟩

-- ===========================================================================
-- C11: is the block big enough
-- ===========================================================================

theorem block_big_enough_of_fit (abi : Abi) (prov : Provider) (m : Mach) (size : Nat)
    (hfit : max m.arena.block_size size + BLOCK_OVERHEAD abi < size_range abi) :
    BlockBigEnough abi prov m size := by
  intro req ret hc hret
  have hreq : (max m.arena.block_size size + BLOCK_OVERHEAD abi) % size_range abi
      = max m.arena.block_size size + BLOCK_OVERHEAD abi := Nat.mod_eq_of_lt hfit
  have hmax := le_max_right m.arena.block_size size
  by_cases hlt : m.arena.size_left < size
  · by_cases hz : prov m.arena.alloc_fn m.calls
        ((max m.arena.block_size size + BLOCK_OVERHEAD abi) % size_range abi) = 0
    · rw [alloc_fail abi prov m size hlt hz] at hc
      injection hc with h1 _
      injection h1 with _ _ h0
      exact absurd h0.symm hret
    · rw [alloc_grow abi prov m size hlt hz, hreq] at hc
      dsimp only [carve] at hc
      injection hc with h1 _
      injection h1 with _ hr _
      omega
  · rw [alloc_fast abi prov m size hlt] at hc
    dsimp only [carve] at hc
    have hlen := congrArg List.length hc
    simp at hlen

/-- C11 fails on the code: on a 64-bit target with `block_size = 64`, the call
`fl_arena_alloc(2^64 - 1)` obtains a new block, the byte count passed to the
provider is 7 (the `size_t` sum of line 154 wraps around), which is less than
`size + BLOCK_OVERHEAD`, and the call still returns the non-null address 4104
as a region of `2^64 - 1` bytes. -/
theorem block_big_enough_fails :
    (fl_arena_alloc abi64 bump_provider fresh64 (2 ^ 64 - 1)).2.calls
      = [Call.alloc 1 7 4096] ∧
    (fl_arena_alloc abi64 bump_provider fresh64 (2 ^ 64 - 1)).1 = 4104 ∧
    7 < 2 ^ 64 - 1 + BLOCK_OVERHEAD abi64 ∧
    7 < fresh64.arena.block_size ∧
    ¬ BlockBigEnough abi64 bump_provider fresh64 (2 ^ 64 - 1) := by
  refine ⟨by decide, by decide, by decide, by decide, ?_⟩
  intro h
  have hc : (fl_arena_alloc abi64 bump_provider fresh64 (2 ^ 64 - 1)).2.calls
      = Call.alloc fresh64.arena.alloc_fn 7 4096 :: fresh64.calls := by decide
  exact absurd (h 7 4096 hc (by decide)) (by decide)

-- ===========================================================================
-- C13: `fl_arena_init` ignores all previous state
-- ===========================================================================

/-- C13. `fl_arena_init` ignores all previous state: whatever the prior state,
the arena afterwards has `blocks`, `current`, `size_left` zero and the three
given configuration values, the same for any two prior states; the call log
and the link words are untouched, so neither callback is called, the chain is
empty and every block outstanding before is still outstanding (dropped, not
released). -/
theorem init_ignores_previous_state (m m2 : Mach) (alloc_fn free_fn block_size : Nat) :
    (fl_arena_init m alloc_fn free_fn block_size).arena
      = { blocks := 0, current := 0, size_left := 0, alloc_fn := alloc_fn,
          free_fn := free_fn, block_size := block_size } ∧
    (fl_arena_init m alloc_fn free_fn block_size).arena
      = (fl_arena_init m2 alloc_fn free_fn block_size).arena ∧
    (fl_arena_init m alloc_fn free_fn block_size).calls = m.calls ∧
    (fl_arena_init m alloc_fn free_fn block_size).heap = m.heap ∧
    live (fl_arena_init m alloc_fn free_fn block_size).calls = live m.calls ∧
    IsChain (fl_arena_init m alloc_fn free_fn block_size).heap
      (fl_arena_init m alloc_fn free_fn block_size).arena.blocks [] :=
  ⟨rfl, rfl, rfl, rfl, rfl, rfl⟩

-- ===========================================================================
-- C14: from Empty to Active
-- ===========================================================================

/-- C14 as stated fails: on the Empty arena right after `fl_arena_init`, the
call `fl_arena_alloc(0)` does not call the provider, so the provider does not
fail, and the arena is still Empty afterwards. -/
theorem empty_to_active_counterexample :
    ArenaEmpty fresh64 ∧
    (fl_arena_alloc abi64 bump_provider fresh64 0).2.calls = fresh64.calls ∧
    ArenaEmpty (fl_arena_alloc abi64 bump_provider fresh64 0).2 ∧
    ¬ EmptyToActive abi64 bump_provider fresh64 0 := by
  have he : ArenaEmpty fresh64 := ⟨rfl, rfl, rfl⟩
  have hc : (fl_arena_alloc abi64 bump_provider fresh64 0).2.calls = [] := by decide
  have hb : (fl_arena_alloc abi64 bump_provider fresh64 0).2.arena.blocks = 0 := by decide
  refine ⟨he, hc, ⟨hb, by decide, by decide⟩, ?_⟩
  intro h
  have hnf : ¬ ProviderFailed abi64 bump_provider fresh64 0 := by
    intro hf
    obtain ⟨req, hreq⟩ := hf
    rw [hc] at hreq
    exact absurd hreq (by simp)
  exact h he hnf hb

/-- C14, amended: for every Empty arena and every size of at least 1, a call
to `fl_arena_alloc` during which the provider does not fail moves the arena to
Active, the chain then being the one new block; a call with size 0 does not
call the provider and leaves the arena Empty. -/
theorem empty_to_active (abi : Abi) (prov : Provider) (m : Mach) (size : Nat) :
    (size ≠ 0 →
      EmptyToActive abi prov m size ∧
      (ArenaEmpty m → ¬ ProviderFailed abi prov m size →
        IsChain (fl_arena_alloc abi prov m size).2.heap
          (fl_arena_alloc abi prov m size).2.arena.blocks
          [(fl_arena_alloc abi prov m size).2.arena.blocks])) ∧
    (size = 0 → ArenaEmpty m →
      ArenaEmpty (fl_arena_alloc abi prov m size).2 ∧
      (fl_arena_alloc abi prov m size).2.calls = m.calls) := by
  constructor
  · intro hs
    have key : ArenaEmpty m → ¬ ProviderFailed abi prov m size →
        (fl_arena_alloc abi prov m size).2.arena.blocks ≠ 0 ∧
        IsChain (fl_arena_alloc abi prov m size).2.heap
          (fl_arena_alloc abi prov m size).2.arena.blocks
          [(fl_arena_alloc abi prov m size).2.arena.blocks] := by
      intro he hnf
      obtain ⟨hb, _, hsl⟩ := he
      have hlt : m.arena.size_left < size := by omega
      by_cases hz : prov m.arena.alloc_fn m.calls
          ((max m.arena.block_size size + BLOCK_OVERHEAD abi) % size_range abi) = 0
      · exact absurd ⟨_, by rw [alloc_fail abi prov m size hlt hz]⟩ hnf
      · rw [alloc_grow abi prov m size hlt hz]
        dsimp only [carve]
        refine ⟨hz, rfl, hz, ?_⟩
        show (if _ = _ then m.arena.blocks else _) = 0
        rw [if_pos rfl]
        exact hb
    exact ⟨fun he hnf => (key he hnf).1, fun he hnf => (key he hnf).2⟩
  · intro hs he
    obtain ⟨hb, hc, hsl⟩ := he
    have hlt : ¬ m.arena.size_left < size := by omega
    rw [alloc_fast abi prov m size hlt]
    have := size_range_pos abi
    refine ⟨⟨hb, ?_, ?_⟩, rfl⟩
    · show m.arena.current + size = 0
      omega
    · show (m.arena.size_left + size_range abi - size) % size_range abi = 0
      rw [hsl, hs]
      simp

/-- Witness for C14: a request of 10 bytes on the fresh arena. -/
theorem empty_to_active_witness :
    (10 : Nat) ≠ 0 ∧ EmptyToActive abi64 bump_provider fresh64 10 :=
  ⟨by decide, ((empty_to_active abi64 bump_provider fresh64 10).1 (by decide)).1⟩

-- ===========================================================================
-- C16: the fast path
-- ===========================================================================

/-- C16. Fast path: for every arena state (with `size_left` a `size_t` value)
and every size, `fl_arena_alloc` calls the provider if and only if
`size_left < size`, and then exactly once; when `size_left >= size` it calls
neither callback, leaves the chain, the link words and the configuration
fields unchanged, returns the old `current`, and sets `size_left` to
`size_left - size` and `current` to `current + size`. -/
theorem fast_path (abi : Abi) (prov : Provider) (m : Mach) (size : Nat)
    (hsl : m.arena.size_left < size_range abi) :
    (m.arena.size_left < size ↔
      ∃ req ret, (fl_arena_alloc abi prov m size).2.calls
        = Call.alloc m.arena.alloc_fn req ret :: m.calls) ∧
    (¬ m.arena.size_left < size →
      (fl_arena_alloc abi prov m size).2.calls = m.calls ∧
      (fl_arena_alloc abi prov m size).2.heap = m.heap ∧
      (fl_arena_alloc abi prov m size).2.arena.blocks = m.arena.blocks ∧
      (fl_arena_alloc abi prov m size).2.arena.alloc_fn = m.arena.alloc_fn ∧
      (fl_arena_alloc abi prov m size).2.arena.free_fn = m.arena.free_fn ∧
      (fl_arena_alloc abi prov m size).2.arena.block_size = m.arena.block_size ∧
      (fl_arena_alloc abi prov m size).1 = m.arena.current ∧
      (fl_arena_alloc abi prov m size).2.arena.size_left = m.arena.size_left - size ∧
      (fl_arena_alloc abi prov m size).2.arena.current = m.arena.current + size) := by
  constructor
  · constructor
    · intro hlt
      by_cases hz : prov m.arena.alloc_fn m.calls
          ((max m.arena.block_size size + BLOCK_OVERHEAD abi) % size_range abi) = 0
      · exact ⟨_, 0, by rw [alloc_fail abi prov m size hlt hz]⟩
      · exact ⟨_, _, by rw [alloc_grow abi prov m size hlt hz]; rfl⟩
    · intro h
      by_contra hlt
      obtain ⟨req, ret, hc⟩ := h
      rw [alloc_fast abi prov m size hlt] at hc
      have hlen := congrArg List.length hc
      dsimp only [carve] at hlen
      simp at hlen
  · intro hlt
    rw [alloc_fast abi prov m size hlt]
    refine ⟨rfl, rfl, rfl, rfl, rfl, rfl, rfl, ?_, rfl⟩
    exact sub_size_t _ _ _ hsl (by omega)

/-- Witness for C16: after 10 bytes served from a block of capacity 64, a
request of 10 bytes is served from the same block. -/
theorem fast_path_witness :
    used64.arena.size_left < size_range abi64 ∧
    ¬ used64.arena.size_left < 10 ∧
    (fl_arena_alloc abi64 bump_provider used64 10).2.calls = used64.calls ∧
    (fl_arena_alloc abi64 bump_provider used64 10).1 = used64.arena.current :=
  have h := (fast_path abi64 bump_provider used64 10 (by decide)).2 (by decide)
  ⟨by decide, by decide, h.1, h.2.2.2.2.2.2.1⟩

-- ===========================================================================
-- C17: the subtraction of line 169
-- ===========================================================================

theorem before_carve_fast (abi : Abi) (prov : Provider) (m : Mach) (size : Nat)
    (h : ¬ m.arena.size_left < size) :
    before_carve abi prov m size = some m := by
  unfold before_carve
  rw [if_neg h]

theorem before_carve_fail (abi : Abi) (prov : Provider) (m : Mach) (size : Nat)
    (h : m.arena.size_left < size)
    (hp : prov m.arena.alloc_fn m.calls
      ((max m.arena.block_size size + BLOCK_OVERHEAD abi) % size_range abi) = 0) :
    before_carve abi prov m size = none := by
  unfold before_carve
  rw [if_pos h]
  simp only [block_size_eq_max]
  rw [if_pos hp]

theorem before_carve_grow (abi : Abi) (prov : Provider) (m : Mach) (size : Nat)
    (h : m.arena.size_left < size)
    (hp : prov m.arena.alloc_fn m.calls
      ((max m.arena.block_size size + BLOCK_OVERHEAD abi) % size_range abi) ≠ 0) :
    before_carve abi prov m size = some
        { arena :=
            { m.arena with
              blocks := prov m.arena.alloc_fn m.calls
                ((max m.arena.block_size size + BLOCK_OVERHEAD abi) % size_range abi)
              current := prov m.arena.alloc_fn m.calls
                ((max m.arena.block_size size + BLOCK_OVERHEAD abi) % size_range abi)
                + BLOCK_OVERHEAD abi
              size_left := max m.arena.block_size size }
          heap := fun a =>
            if a = prov m.arena.alloc_fn m.calls
                ((max m.arena.block_size size + BLOCK_OVERHEAD abi) % size_range abi)
            then m.arena.blocks else m.heap a
          calls := Call.alloc m.arena.alloc_fn
            ((max m.arena.block_size size + BLOCK_OVERHEAD abi) % size_range abi)
            (prov m.arena.alloc_fn m.calls
              ((max m.arena.block_size size + BLOCK_OVERHEAD abi) % size_range abi))
            :: m.calls } := by
  unfold before_carve
  rw [if_pos h]
  simp only [block_size_eq_max]
  rw [if_neg hp]

/-- C17. The subtraction never underflows: whenever `fl_arena_alloc` reaches
line 168 in a state `s` (the call is then `carve` on `s`), `s.size_left` is at
least `size`, whether `s` is the entry state or the state with the new block;
so for a `size_t` value of `size_left` the result of `size_left -= size` is the
exact difference.  When line 168 is not reached the call has returned null
with the arena unchanged. -/
theorem subtraction_never_underflows (abi : Abi) (prov : Provider) (m : Mach) (size : Nat) :
    (∀ s, before_carve abi prov m size = some s →
      fl_arena_alloc abi prov m size = carve abi s size ∧
      size ≤ s.arena.size_left ∧
      (s.arena.size_left < size_range abi →
        (carve abi s size).2.arena.size_left = s.arena.size_left - size)) ∧
    (before_carve abi prov m size = none →
      (fl_arena_alloc abi prov m size).1 = 0 ∧
      (fl_arena_alloc abi prov m size).2.arena = m.arena) := by
  have hsub : ∀ s : Mach, size ≤ s.arena.size_left → s.arena.size_left < size_range abi →
      (carve abi s size).2.arena.size_left = s.arena.size_left - size := by
    intro s h1 h2
    exact sub_size_t _ _ _ h2 h1
  by_cases hlt : m.arena.size_left < size
  · by_cases hz : prov m.arena.alloc_fn m.calls
        ((max m.arena.block_size size + BLOCK_OVERHEAD abi) % size_range abi) = 0
    · rw [before_carve_fail abi prov m size hlt hz, alloc_fail abi prov m size hlt hz]
      refine ⟨?_, fun _ => ⟨rfl, rfl⟩⟩
      intro s hs
      exact absurd hs (by simp)
    · rw [before_carve_grow abi prov m size hlt hz, alloc_grow abi prov m size hlt hz]
      refine ⟨?_, fun h => absurd h (by simp)⟩
      intro s hs
      injection hs with hs
      subst hs
      have hge : size ≤ max m.arena.block_size size := le_max_right _ _
      exact ⟨rfl, hge, hsub _ hge⟩
  · rw [before_carve_fast abi prov m size hlt, alloc_fast abi prov m size hlt]
    refine ⟨?_, fun h => absurd h (by simp)⟩
    intro s hs
    injection hs with hs
    subst hs
    have hge : size ≤ m.arena.size_left := by omega
    exact ⟨rfl, hge, hsub _ hge⟩

/-- Witness for C17: a request of 100 bytes on the arena that has 54 bytes
left reaches line 168 with `size_left = 100`. -/
theorem subtraction_never_underflows_witness :
    before_carve abi64 bump_provider used64 100 = some grown64 ∧
    100 ≤ grown64.arena.size_left :=
  ⟨rfl, ((subtraction_never_underflows abi64 bump_provider used64 100).1 grown64 rfl).2.1⟩

-- ===========================================================================
-- C18: the remainder is bounded by the block size
-- ===========================================================================

/-- C18. Bounded remainder: in every state reachable from `fl_arena_init` by
`fl_arena_alloc` and `fl_arena_free`, `size_left <= block_size`; and a call
that obtains a block (the provider is called and succeeds) for a request of
`size >= block_size` leaves `size_left = 0`. -/
theorem bounded_remainder (abi : Abi) (prov : Provider) (m : Mach) (base : List Call)
    (hr : Reachable abi prov m base) :
    m.arena.size_left ≤ m.arena.block_size ∧
    ∀ size, size < size_range abi → m.arena.block_size ≤ size →
      ∀ req ret, ret ≠ 0 →
        (fl_arena_alloc abi prov m size).2.calls
          = Call.alloc m.arena.alloc_fn req ret :: m.calls →
        (fl_arena_alloc abi prov m size).2.arena.size_left = 0 := by
  obtain ⟨hb, hl, _⟩ := reachable_inv abi prov m base hr
  refine ⟨hl, ?_⟩
  intro size hs hbig req ret hret hc
  by_cases hlt : m.arena.size_left < size
  · by_cases hz : prov m.arena.alloc_fn m.calls
        ((max m.arena.block_size size + BLOCK_OVERHEAD abi) % size_range abi) = 0
    · rw [alloc_fail abi prov m size hlt hz] at hc
      injection hc with h1 _
      injection h1 with _ _ h0
      exact absurd h0.symm hret
    · rw [alloc_grow abi prov m size hlt hz]
      have hmax : max m.arena.block_size size = size := max_eq_right hbig
      show (max m.arena.block_size size + size_range abi - size) % size_range abi = 0
      rw [hmax, sub_size_t _ _ _ hs (le_refl _)]
      omega
  · rw [alloc_fast abi prov m size hlt] at hc
    have hlen := congrArg List.length hc
    dsimp only [carve] at hlen
    simp at hlen

/-- Witness for C18: the arena that has served 10 bytes of a block of capacity
64 has `size_left = 54`, at most 64. -/
theorem bounded_remainder_witness :
    Reachable abi64 bump_provider used64 [] ∧
    used64.arena.size_left ≤ used64.arena.block_size :=
  ⟨Reachable.alloc fresh64 [] 10 (Reachable.init mach0 1 2 64 (by decide)) (by decide),
   (bounded_remainder abi64 bump_provider used64 []
    (Reachable.alloc fresh64 [] 10 (Reachable.init mach0 1 2 64 (by decide))
      (by decide))).1⟩

-- ===========================================================================
-- C15: the chain is a stack
-- ===========================================================================

theorem grow_step (abi : Abi) (prov : Provider) (m : Mach) (size cap : Nat)
    (hlt : m.arena.size_left < size) (hcap : max m.arena.block_size size = cap)
    (hfit : cap + BLOCK_OVERHEAD abi < size_range abi)
    (hp : prov m.arena.alloc_fn m.calls (cap + BLOCK_OVERHEAD abi) ≠ 0) :
    ∃ s, fl_arena_alloc abi prov m size
        = (prov m.arena.alloc_fn m.calls (cap + BLOCK_OVERHEAD abi) + BLOCK_OVERHEAD abi, s) ∧
      s.calls = Call.alloc m.arena.alloc_fn (cap + BLOCK_OVERHEAD abi)
        (prov m.arena.alloc_fn m.calls (cap + BLOCK_OVERHEAD abi)) :: m.calls ∧
      s.heap = (fun a =>
        if a = prov m.arena.alloc_fn m.calls (cap + BLOCK_OVERHEAD abi)
        then m.arena.blocks else m.heap a) ∧
      s.arena =
        { blocks := prov m.arena.alloc_fn m.calls (cap + BLOCK_OVERHEAD abi)
          current := prov m.arena.alloc_fn m.calls (cap + BLOCK_OVERHEAD abi)
            + BLOCK_OVERHEAD abi + size
          size_left := cap - size
          alloc_fn := m.arena.alloc_fn
          free_fn := m.arena.free_fn
          block_size := m.arena.block_size } := by
  subst hcap
  have hreq : (max m.arena.block_size size + BLOCK_OVERHEAD abi) % size_range abi
      = max m.arena.block_size size + BLOCK_OVERHEAD abi := Nat.mod_eq_of_lt hfit
  have hp2 : prov m.arena.alloc_fn m.calls
      ((max m.arena.block_size size + BLOCK_OVERHEAD abi) % size_range abi) ≠ 0 := by
    rw [hreq]
    exact hp
  have hsub : (max m.arena.block_size size + size_range abi - size) % size_range abi
      = max m.arena.block_size size - size :=
    sub_size_t _ _ _ (by omega) (le_max_right _ _)
  rw [alloc_grow abi prov m size hlt hp2, hreq]
  dsimp only [carve]
  rw [hsub]
  exact ⟨_, rfl, rfl, rfl, rfl⟩

theorem fast_step (abi : Abi) (prov : Provider) (m : Mach) (size : Nat)
    (hge : size ≤ m.arena.size_left) (hsl : m.arena.size_left < size_range abi) :
    ∃ s, fl_arena_alloc abi prov m size = (m.arena.current, s) ∧
      s.calls = m.calls ∧ s.heap = m.heap ∧
      s.arena =
        { blocks := m.arena.blocks
          current := m.arena.current + size
          size_left := m.arena.size_left - size
          alloc_fn := m.arena.alloc_fn
          free_fn := m.arena.free_fn
          block_size := m.arena.block_size } := by
  have hlt : ¬ m.arena.size_left < size := by omega
  rw [alloc_fast abi prov m size hlt]
  dsimp only [carve]
  rw [sub_size_t _ _ _ hsl hge]
  exact ⟨_, rfl, rfl, rfl, rfl⟩

/-- C12. The scenario of the spec with `block_size = 64`, for every target on
which `100 + BLOCK_OVERHEAD` fits in `size_t` and every provider that always
succeeds and never returns a block still outstanding: after `fl_arena_init`,
`fl_arena_alloc(10)` obtains a block `A` of capacity 64 and returns the start
of its usable region; `fl_arena_alloc(10)` returns that address plus 10 with
no provider call and `size_left = 44`; `fl_arena_alloc(100)` obtains a second
block `B` of capacity 100 and returns the start of its usable region;
`fl_arena_free` terminates, calls the releaser on `B` and on `A`, once each,
and leaves the arena Empty; `fl_arena_alloc(5)` then succeeds and obtains a
block of capacity 64. -/
theorem spec_scenario (abi : Abi) (prov : Provider) (m0 : Mach) (af ff : Nat)
    (hfit : 100 + BLOCK_OVERHEAD abi < size_range abi)
    (hsucc : ∀ fn log n, prov fn log n ≠ 0)
    (hfresh : ProviderFresh
      (alloc_seq abi prov (fl_arena_init m0 af ff 64) [10, 10, 100]).2.calls) :
    Scenario abi prov m0 af ff := by
  -- first request: a block of capacity 64
  obtain ⟨s1, e1, c1, h1, a1⟩ := grow_step abi prov (fl_arena_init m0 af ff 64) 10 64
    (by show (0 : Nat) < 10; decide) (by show max 64 10 = 64; decide) (by omega)
    (hsucc _ _ _)
  dsimp only [fl_arena_init] at c1 h1 a1
  -- second request: served from the same block
  have hsl1 : s1.arena.size_left = 54 := by rw [a1]
  obtain ⟨s2, e2, c2, h2, a2⟩ := fast_step abi prov s1 10 (by omega) (by omega)
  have hcur1 : s1.arena.current
      = prov af m0.calls (64 + BLOCK_OVERHEAD abi) + BLOCK_OVERHEAD abi + 10 := by
    rw [a1]
  have hs2 : s2.arena =
      { blocks := prov af m0.calls (64 + BLOCK_OVERHEAD abi)
        current := prov af m0.calls (64 + BLOCK_OVERHEAD abi) + BLOCK_OVERHEAD abi + 10 + 10
        size_left := 44
        alloc_fn := af
        free_fn := ff
        block_size := 64 } := by
    rw [a2, a1]
    rfl
  have hsl2 : s2.arena.size_left = 44 := by rw [hs2]
  -- third request: a block of capacity 100
  obtain ⟨s3, e3, c3, h3, a3⟩ := grow_step abi prov s2 100 100
    (by omega) (by rw [hs2]; show max 64 100 = 100; decide) hfit (hsucc _ _ _)
  have haf2 : s2.arena.alloc_fn = af := by rw [hs2]
  rw [haf2] at e3 c3 h3 a3
  have hlog3 : (alloc_seq abi prov (fl_arena_init m0 af ff 64) [10, 10, 100]).2.calls
      = s3.calls := by
    simp only [alloc_seq, e1, e2, e3]
  rw [hlog3, c3, c2, c1] at hfresh
  have hA : prov af m0.calls (64 + BLOCK_OVERHEAD abi) ≠ 0 := hsucc _ _ _
  have hB : prov af s2.calls (100 + BLOCK_OVERHEAD abi) ≠ 0 := hsucc _ _ _
  have hAB : prov af m0.calls (64 + BLOCK_OVERHEAD abi)
      ≠ prov af s2.calls (100 + BLOCK_OVERHEAD abi) := by
    rcases hfresh.1 with h | h
    · rw [c2, c1] at hB
      exact absurd h hB
    · have hmem : (prov af m0.calls (64 + BLOCK_OVERHEAD abi), 64 + BLOCK_OVERHEAD abi)
          ∈ live (Call.alloc af (64 + BLOCK_OVERHEAD abi)
            (prov af m0.calls (64 + BLOCK_OVERHEAD abi)) :: m0.calls) := by
        simp only [live, if_neg hA]
        exact List.mem_cons_self _ _
      have := h _ hmem
      rw [c2, c1]
      exact this
  -- release: the chain is B, then A
  have hblocks3 : s3.arena.blocks = prov af s2.calls (100 + BLOCK_OVERHEAD abi) := by
    rw [a3]
  have hff3 : s3.arena.free_fn = ff := by rw [a3, hs2]
  have hchain : IsChain s3.heap s3.arena.blocks
      [prov af s2.calls (100 + BLOCK_OVERHEAD abi),
       prov af m0.calls (64 + BLOCK_OVERHEAD abi)] := by
    rw [hblocks3, h3, h2, h1, hs2]
    refine ⟨rfl, hB, ?_, hA, ?_⟩
    · exact if_pos rfl
    · exact (if_neg hAB).trans (if_pos rfl)
  obtain ⟨s4, hfree, ha4, hc4⟩ : ∃ s4 : Mach,
      (∀ fuel, 2 ≤ fuel → fl_arena_free fuel s3 = some s4) ∧
      s4.arena = { blocks := 0, current := 0, size_left := 0, alloc_fn := af,
                   free_fn := ff, block_size := 64 } ∧
      s4.calls = Call.free ff (prov af m0.calls (64 + BLOCK_OVERHEAD abi))
        :: Call.free ff (prov af s2.calls (100 + BLOCK_OVERHEAD abi)) :: s3.calls := by
    refine ⟨_, fun fuel hf => free_of_chain s3 _ fuel hchain hf, ?_, ?_⟩
    · show ({ s3.arena with blocks := 0, current := 0, size_left := 0 } : FlArena) = _
      rw [a3, hs2]
    · show ([prov af s2.calls (100 + BLOCK_OVERHEAD abi),
          prov af m0.calls (64 + BLOCK_OVERHEAD abi)].map
          (Call.free s3.arena.free_fn)).reverse ++ s3.calls = _
      rw [hff3]
      rfl
  -- last request: a fresh block of capacity 64
  obtain ⟨s5, e5, c5, _, _⟩ := grow_step abi prov s4 5 64
    (by rw [ha4]; show (0 : Nat) < 5; decide)
    (by rw [ha4]; show max 64 5 = 64; decide)
    (by omega) (hsucc _ _ _)
  have haf4 : s4.arena.alloc_fn = af := by rw [ha4]
  rw [haf4] at e5 c5
  rw [hcur1] at e2
  exact ⟨prov af m0.calls (64 + BLOCK_OVERHEAD abi),
    prov af s2.calls (100 + BLOCK_OVERHEAD abi),
    prov af s4.calls (64 + BLOCK_OVERHEAD abi),
    s1, s2, s3, s4, s5, e1, c1, hA, e2, c2, hsl2,
    e3, c3, hB, hfree, hc4, hAB, ⟨by rw [ha4], by rw [ha4], by rw [ha4]⟩, e5, c5,
    hsucc _ _ _⟩

/-- Witness for C12: the scenario on a 64-bit target with the example
provider, starting from the empty machine. -/
theorem spec_scenario_witness :
    100 + BLOCK_OVERHEAD abi64 < size_range abi64 ∧
    ProviderFresh (alloc_seq abi64 bump_provider (fl_arena_init mach0 1 2 64)
      [10, 10, 100]).2.calls ∧
    Scenario abi64 bump_provider mach0 1 2 :=
  have hs : ∀ fn log n, bump_provider fn log n ≠ 0 := by
    intro fn log n
    simp [bump_provider]
  ⟨by decide, by decide, spec_scenario abi64 bump_provider mach0 1 2 (by decide) hs (by decide)⟩

end Flint
